import Mathlib

/-!
Verification development for the cobi-glasses streaming audio pipeline.

The repository streams live microphone audio from a client session to two
downstream inference consumers (a YAMNet environmental-sound classifier and a
faster-whisper transcriber) and relays their results back to the session.

This file shallowly embeds the session-pipeline logic of the four relevant
source files:
  * `src/services/sound-classifier/app.py` (windowing + result filtering),
  * `src/services/transcription-service/app.py` (offline worker, control text),
  * `src/services/transcription-service/w-app.py` (offline worker, VAD gate),
  * `src/services/audio-capture/audio-capture-bridge.py` (callback, fan-out
    relay, control socket session state machine),
and proves the spec's testable properties about those embeddings.

Conventions: int16 PCM samples are `Int`; float32 samples are `ℚ` (the code
only moves samples around, divides by 32768.0 and compares scores, so exact
rationals model every arithmetic step the properties depend on); byte strings
on queues become an inductive item type with a distinct end-of-stream marker
(the code's sentinel `b"__EOS__"`); the external inference model is an oracle
function returning either segments or an error (the code's try/except around
`model.transcribe`).
-/

namespace CobiGlasses

/-! ## Sound classifier: `src/services/sound-classifier/app.py`

`SAMPLE_RATE` is 16000 in `shared/config/audio_config.py`, hence
`INPUT_SAMPLE_RATE = TARGET_SAMPLE_RATE = 16000` and `resample_if_needed`
takes its `from_sr == to_sr` identity branch on every chunk; the embedding
therefore composes `normalize_int16_to_float32` directly with the buffering
loop of `classify_socket`. -/

/-- YAMNet expects exactly 15600 samples (0.975 s at 16 kHz); `app.py` line 46. -/
def YAMNET_INPUT_SIZE : Nat := 15600

/-- Default `CONFIDENCE_THRESHOLD` (0.30), `app.py` line 50. -/
def CONFIDENCE_THRESHOLD : ℚ := 3 / 10

/-- Default `IGNORED_LABELS`, `app.py` lines 51-53. -/
def IGNORED_LABELS : List String := ["Silence", "Speech", "Inside, small room", "Inside, large room"]

/-- `normalize_int16_to_float32`: raw PCM int16 samples to float32 in [-1, 1]
(`app.py` lines 123-128; byte decoding via `np.frombuffer` is elided, the
argument is already the decoded int16 sample list). -/
def normalize_int16_to_float32 (pcm : List Int) : List ℚ :=
  pcm.map (fun i : Int => (i : ℚ) / 32768)

/-- The inner windowing loop of `classify_socket` (`app.py` lines 231-234):
while the buffer holds at least `W` samples, slice the first `W` samples off
as an analysis window and keep the remainder.  Returns the windows in order
together with the final (short) buffer.  `W = 0` would not terminate in the
Python source either; the embedding returns no windows in that degenerate
case. -/
def drain_windows (W : Nat) (buffer : List ℚ) : List (List ℚ) × List ℚ :=
  if _h : 0 < W ∧ W ≤ buffer.length then
    let rest := drain_windows W (buffer.drop W)
    (buffer.take W :: rest.1, rest.2)
  else
    ([], buffer)
termination_by buffer.length
decreasing_by
  simp only [List.length_drop]
  omega

/-- One iteration of the `classify_socket` receive loop (`app.py` lines
219-234): normalize the incoming PCM chunk, append to the running buffer, and
drain all full analysis windows. -/
def classify_push (W : Nat) (buffer : List ℚ) (pcm : List Int) : List (List ℚ) × List ℚ :=
  drain_windows W (buffer ++ normalize_int16_to_float32 pcm)

/-- Accumulating step of the receive loop: previous windows plus the windows
drained after this chunk, and the new leftover buffer. -/
def classifyFoldStep (W : Nat) (acc : List (List ℚ) × List ℚ) (pcm : List Int) :
    List (List ℚ) × List ℚ :=
  let d := classify_push W acc.2 pcm
  (acc.1 ++ d.1, d.2)

/-- The `classify_socket` receive loop over a whole sequence of binary
messages, collecting every analysis window handed to the interpreter and the
final leftover buffer. -/
def classify_run (W : Nat) (chunks : List (List Int)) : List (List ℚ) × List ℚ :=
  chunks.foldl (classifyFoldStep W) ([], [])

/-- `np.argmax`: index of the first occurrence of the maximal score
(`app.py` line 244; `np.argmax` on an empty array raises, the embedding
returns 0 and theorems assume a non-empty score vector). -/
def argmax_idx (scores : List ℚ) : Nat :=
  match scores.maximum with
  | none => 0
  | some m => scores.indexOf m

/-- Outgoing classifier event `{"type": "environment", ...}` (`app.py` lines
251-255). -/
structure EnvEvent where
  label : String
  confidence : ℚ
deriving DecidableEq, Repr

/-- Per-window decision logic of `classify_socket` (`app.py` lines 244-255):
take the top-scoring class, look up its label (generic `class_i` when the
class map is shorter), and send an environment event exactly when the
confidence clears the threshold and the label is not ignored. -/
def classify_window (scores : List ℚ) (classNames : List String) (thr : ℚ)
    (ignored : List String) : Option EnvEvent :=
  let top := argmax_idx scores
  let confidence := scores.getD top 0
  let label := if top < classNames.length then classNames.getD top "" else "class_" ++ toString top
  if thr ≤ confidence ∧ label ∉ ignored then
    some ⟨label, confidence⟩
  else
    none

/-! ## Offline transcription worker: `src/services/transcription-service/app.py`

`offline_worker_process` (lines 56-142) loops reading items from its inbound
multiprocessing queue.  Raw PCM bytes are decoded (`np.frombuffer`, int16) and
appended to a running int16 buffer; once the buffer reaches
`PARTIAL_SECONDS * SAMPLE_RATE` samples the whole buffer is normalized,
transcribed, an optional `{"partial": ...}` is emitted, and only the last
second of samples is retained.  The sentinel `b"__EOS__"` triggers a final
flush (gated by `MIN_SAMPLES`) emitting one `{"final": ...}` per returned
segment, then the loop breaks.  Exceptions from `model.transcribe` are caught
and reported as `{"error": ...}`.

The external model call is an oracle `tr : List ℚ → Except String (List
String)` taking the normalized float buffer and returning the segment texts
(`.ok`) or the exception message (`.error`).  The state records, besides the
buffer and the emitted messages, every float buffer handed to
`model.transcribe` (the analysis windows), in call order. -/

/-- Inbound-queue items of the offline workers: raw PCM byte chunks (decoded
to int16 samples) or the end-of-stream sentinel `b"__EOS__"`. -/
inductive QItem where
  | chunk (pcm : List Int)
  | eos
deriving DecidableEq, Repr

/-- Outbound-queue messages of `offline_worker_process` in `app.py`:
`{"partial": t}`, `{"final": t}` or `{"error": t}`. -/
inductive AppMsg where
  | Partial (text : String)
  | Final (text : String)
  | Error (text : String)
deriving DecidableEq, Repr

/-- The segment-text joining `" ".join(...)` + `.strip()` (`app.py` line 120). -/
def join_segments (segs : List String) : String :=
  (String.intercalate " " segs).trim

/-- `PARTIAL_SECONDS = 1.5`, so `int(1.5 * 16000)` samples (`app.py` line 80, 116). -/
def APP_PARTIAL_SAMPLES : Nat := 24000

/-- `MIN_SAMPLES = int(0.3 * SAMPLE_RATE)` (`app.py` line 82). -/
def APP_MIN_SAMPLES : Nat := 4800

/-- `overlap = int(1.0 * SAMPLE_RATE)` kept for context (`app.py` line 127). -/
def APP_OVERLAP_SAMPLES : Nat := 16000

/-- Worker-process state of `offline_worker_process` (`app.py`): the int16
buffer `buf`, the messages put on `output_q` in order, the float buffers
passed to `model.transcribe` in call order, and whether the loop has broken
(worker exited). -/
structure AppWorkerState where
  buf : List Int
  out : List AppMsg
  windows : List (List ℚ)
  exited : Bool
deriving DecidableEq, Repr

/-- Initial worker state: `buf = np.zeros((0,))`, nothing emitted. -/
def appInit : AppWorkerState := ⟨[], [], [], false⟩

/-- The final-flush block of `app.py` (lines 98-106): transcribe the whole
normalized buffer and emit one `{"final": seg.text}` per segment, or one
`{"error": ...}` if the model call raised. -/
def appFinalEmit (tr : List ℚ → Except String (List String)) (buf : List Int) : List AppMsg :=
  match tr (normalize_int16_to_float32 buf) with
  | .ok segs => segs.map AppMsg.Final
  | .error e => [AppMsg.Error ("final transcription error: " ++ e)]

/-- The partial-emission block of `app.py` (lines 117-124): transcribe the
whole normalized buffer, join the segment texts, emit one `{"partial": ...}`
when the joined text is non-empty (none when empty), or one `{"error": ...}`
if the model call raised. -/
def appPartialEmit (tr : List ℚ → Except String (List String)) (buf1 : List Int) : List AppMsg :=
  match tr (normalize_int16_to_float32 buf1) with
  | .ok segs =>
    if join_segments segs = "" then [] else [AppMsg.Partial (join_segments segs)]
  | .error e => [AppMsg.Error ("partial transcription error: " ++ e)]

/-- One iteration of the `offline_worker_process` loop in `app.py` (lines
84-131) on a received item.  A worker that has already exited consumes
nothing (items left on the queue after the loop broke are never read). -/
def appStep (tr : List ℚ → Except String (List String)) (st : AppWorkerState)
    (item : QItem) : AppWorkerState :=
  if st.exited then st
  else
    match item with
    | .eos =>
      if APP_MIN_SAMPLES ≤ st.buf.length then
        { st with out := st.out ++ appFinalEmit tr st.buf,
                  windows := st.windows ++ [normalize_int16_to_float32 st.buf],
                  exited := true }
      else
        { st with exited := true }
    | .chunk pcm =>
      let buf1 := st.buf ++ pcm
      if APP_PARTIAL_SAMPLES ≤ buf1.length then
        { st with
            buf := if APP_OVERLAP_SAMPLES < buf1.length then
                buf1.drop (buf1.length - APP_OVERLAP_SAMPLES)
              else [],
            out := st.out ++ appPartialEmit tr buf1,
            windows := st.windows ++ [normalize_int16_to_float32 buf1] }
      else
        { st with buf := buf1 }

/-- The worker loop over a finite inbound item sequence. -/
def appRun (tr : List ℚ → Except String (List String)) (items : List QItem) : AppWorkerState :=
  items.foldl (appStep tr) appInit

/-! ## Offline transcription worker: `src/services/transcription-service/w-app.py`

`offline_worker_process` (lines 100-206) differs from `app.py`: the buffer
holds float32 samples (converted on arrival by `int16_bytes_to_float32`), the
partial threshold defaults to `PARTIAL_SECONDS = 2.0`, the noise floor to
`MIN_SAMPLES_SEC = 0.5`, and both the partial and the final flush join all
segment texts into one string and emit at most one message (skipped when the
joined text is empty), tagged with the detected language.  The oracle
`tr : List ℚ → Except String (List String × String)` stands for
`model.transcribe` on the WAV-encoded buffer and returns (segment texts,
`info.language`); the WAV container round-trip (clip, scale to int16, wrap in
a RIFF header) does not change which samples one call sees, so windows are
recorded as the float buffer handed to `float32_to_wav_bytes`. -/

/-- Outbound messages of `offline_worker_process` in `w-app.py`:
`{"partial": t, "language": l}`, `{"final": t, "language": l}` or `{"error": t}`. -/
inductive WMsg where
  | Partial (text lang : String)
  | Final (text lang : String)
  | Error (text : String)
deriving DecidableEq, Repr

/-- `int16_bytes_to_float32` (`w-app.py` lines 80-83). -/
def int16_bytes_to_float32 (pcm : List Int) : List ℚ :=
  pcm.map (fun i : Int => (i : ℚ) / 32768)

/-- `int(PARTIAL_SECONDS * sr)` with the default `PARTIAL_SECONDS = 2.0`
at 16 kHz (`w-app.py` line 129, 171). -/
def W_PARTIAL_SAMPLES : Nat := 32000

/-- `MIN_SAMPLES = int(0.5 * sr)` default (`w-app.py` line 130). -/
def W_MIN_SAMPLES : Nat := 8000

/-- `overlap = int(1.0 * sr)` (`w-app.py` line 190). -/
def W_OVERLAP_SAMPLES : Nat := 16000

/-- Worker-process state of `offline_worker_process` in `w-app.py`. -/
structure WWorkerState where
  buf : List ℚ
  out : List WMsg
  windows : List (List ℚ)
  exited : Bool
deriving DecidableEq, Repr

/-- Initial state: empty float buffer. -/
def wInit : WWorkerState := ⟨[], [], [], false⟩

/-- The final-flush block of `w-app.py` (lines 143-159): transcribe the
buffer, join the segment texts; emit exactly one `{"final": text, "language":
lang}` when the joined text is non-empty, nothing when it is empty, or one
`{"error": ...}` if the model call raised. -/
def wFinalEmit (tr : List ℚ → Except String (List String × String)) (buf : List ℚ) : List WMsg :=
  match tr buf with
  | .ok (segs, lang) =>
    if join_segments segs = "" then [] else [WMsg.Final (join_segments segs) lang]
  | .error e => [WMsg.Error ("Final transcription error: " ++ e)]

/-- The partial-emission block of `w-app.py` (lines 171-187). -/
def wPartialEmit (tr : List ℚ → Except String (List String × String)) (buf1 : List ℚ) : List WMsg :=
  match tr buf1 with
  | .ok (segs, lang) =>
    if join_segments segs = "" then [] else [WMsg.Partial (join_segments segs) lang]
  | .error e => [WMsg.Error ("Partial transcription error: " ++ e)]

/-- One iteration of the `offline_worker_process` loop in `w-app.py`
(lines 133-191). -/
def wStep (tr : List ℚ → Except String (List String × String)) (st : WWorkerState)
    (item : QItem) : WWorkerState :=
  if st.exited then st
  else
    match item with
    | .eos =>
      if W_MIN_SAMPLES ≤ st.buf.length then
        { st with out := st.out ++ wFinalEmit tr st.buf,
                  windows := st.windows ++ [st.buf], exited := true }
      else
        { st with exited := true }
    | .chunk pcm =>
      let buf1 := st.buf ++ int16_bytes_to_float32 pcm
      if W_PARTIAL_SAMPLES ≤ buf1.length then
        { st with
            buf := if W_OVERLAP_SAMPLES < buf1.length then
                buf1.drop (buf1.length - W_OVERLAP_SAMPLES)
              else [],
            out := st.out ++ wPartialEmit tr buf1,
            windows := st.windows ++ [buf1] }
      else
        { st with buf := buf1 }

/-- The `w-app.py` worker loop over a finite inbound item sequence. -/
def wRun (tr : List ℚ → Except String (List String × String)) (items : List QItem) : WWorkerState :=
  items.foldl (wStep tr) wInit

/-! ## VAD gate: `src/services/transcription-service/w-app.py`

`is_speech` (lines 63-75) runs a 30 ms WebRTC-VAD check on the first frame of
an incoming byte chunk.  Audio chunks are modelled as int16 sample lists, so a
chunk of `n` samples is `2 * n` bytes; `bytes_per_frame = int(16000 * 30 /
1000) * 2 = 960` bytes = 480 samples.  The external `vad.is_speech` call is an
oracle `vdec : List Int → Except String Bool` on the first frame — `.error`
models the call raising, which the code converts to `True` (fail-open). -/

/-- `bytes_per_frame` (`w-app.py` line 68): 960 bytes at 16 kHz / 30 ms. -/
def BYTES_PER_FRAME : Nat := 960

/-- Byte length of a chunk of int16 samples (`len(audio_chunk)`). -/
def byteLen (chunk : List Int) : Nat := 2 * chunk.length

/-- `is_speech` (`w-app.py` lines 63-75) with `VAD_AVAILABLE` as a flag and
the WebRTC VAD call as an oracle on the first 960-byte (480-sample) frame. -/
def is_speech (vadAvailable : Bool) (vdec : List Int → Except String Bool)
    (chunk : List Int) : Bool :=
  if !vadAvailable then true
  else if byteLen chunk < BYTES_PER_FRAME then false
  else
    match vdec (chunk.take 480) with
    | .ok b => b
    | .error _ => true

/-- The bytes branch of the `websocket_transcribe` receive loop in `w-app.py`
(lines 273-284): the chunk is put on the worker's inbound queue exactly when
`is_speech` returns true, otherwise it is silently discarded. -/
def wsAudioStep (vadAvailable : Bool) (vdec : List Int → Except String Bool)
    (inQ : List QItem) (chunk : List Int) : List QItem :=
  if is_speech vadAvailable vdec chunk then inQ ++ [QItem.chunk chunk] else inQ

/-! ## Audio-capture bridge: `src/services/audio-capture/audio-capture-bridge.py`

### Fan-out relay

`process_audio_block` (lines 56-79) sends one audio block to the transcriber
and the classifier connections.  Each live connection contributes one send
task; `asyncio.gather(..., return_exceptions=True)` yields per-task outcomes,
modelled as `Bool` (true = the send succeeded, false = it raised).  The
result is `len(errors) < len(tasks)`: success iff at least one consumer
accepted, and `False` when there is no live connection at all. -/

/-- Send-task outcomes for one block: one `Bool` per live connection
(`none` = that websocket variable is `None`, no task created). -/
def sendTasks (wsT wsC : Option Bool) : List Bool :=
  wsT.toList ++ wsC.toList

/-- `process_audio_block` (`audio-capture-bridge.py` lines 56-79). -/
def process_audio_block (wsT wsC : Option Bool) : Bool :=
  let tasks := sendTasks wsT wsC
  if tasks.isEmpty then false
  else (tasks.filter (fun r => !r)).length < tasks.length

/-- The streaming loop body of `mic_stream_logic` (lines 142-164): blocks are
processed in order; after each block the loop continues iff
`process_audio_block` reported success (`if not success: break`).  Returns
the blocks actually dispatched (each with its pair of per-consumer
outcomes). -/
def micLoop : List (Option Bool × Option Bool) → List (Option Bool × Option Bool)
  | [] => []
  | o :: rest => if process_audio_block o.1 o.2 then o :: micLoop rest else [o]

/-! ### Capture callback

`audio_callback` (lines 42-49): when the stop signal is clear, try a
non-blocking enqueue of a copy of the block; `queue.Full` is caught and the
block dropped with a warning.  When the stop signal is set the block is
discarded without touching the queue.  The bounded queue
(`queue.Queue(maxsize=64)`) is a list of at most 64 blocks. -/

/-- `audio_q` capacity (`queue.Queue(maxsize=64)`, line 38). -/
def QUEUE_MAXSIZE : Nat := 64

/-- `queue.Queue.put_nowait`: append if below capacity, else raise `Full`. -/
def put_nowait (q : List α) (x : α) : Except Unit (List α) :=
  if q.length < QUEUE_MAXSIZE then .ok (q ++ [x]) else .error ()

/-- `audio_callback` (lines 42-49) on one invocation: returns the new queue
and whether the "queue full, dropping frame" warning was recorded.  Total
function: the only exception the enqueue can raise (`queue.Full`) is caught. -/
def audio_callback (stopSet : Bool) (q : List α) (block : α) : List α × Bool :=
  if !stopSet then
    match put_nowait q block with
    | .ok q' => (q', false)
    | .error _ => (q, true)
  else (q, false)

/-! ### Control-socket session state machine

`control_socket` (lines 193-237) owns one session: a local `mic_thread`, the
global `stop_event` and the global bounded `audio_q`.  The embedding is an
event-driven state machine over the observable session state.  Events:

* `cmdStart` / `cmdStop`: a parsed `{"action": ...}` control command
  (lines 211-227);
* `cmdNoop`: a well-formed JSON command with any other / missing action
  (falls through both `if` branches, lines 211 and 223);
* `loopExit`: the capture loop terminates — it observed the stop signal, or
  all sends failed, or the loop body raised (lines 142-164, 181-191);
* `enqueue`: the sounddevice callback fires with a block while the capture
  loop's input stream is open (lines 42-49, 139);
* `dequeue`: the capture loop pops one block (`audio_q.get_nowait`) and
  dispatches it to the consumers (lines 145-148).

Queued and delivered blocks are tagged with the session number (the count of
accepted starts) current when they were enqueued, which identifies the
capture loop whose stream produced them. -/

/-- Observable session state of `control_socket`. -/
structure BridgeState where
  /-- Number of live capture loops (mic threads). -/
  live : Nat
  /-- The `stop_event` flag. -/
  stopSet : Bool
  /-- Number of accepted start commands so far (current session number). -/
  session : Nat
  /-- The bounded frame queue: originating session of each queued block. -/
  q : List Nat
  /-- Delivered blocks: (session at delivery time, originating session). -/
  delivered : List (Nat × Nat)
deriving DecidableEq, Repr

/-- Session state when a control client connects: no mic thread, queue as
left behind (arbitrary contents are allowed to model a prior connection). -/
def bridgeInit : BridgeState := ⟨0, false, 0, [], []⟩

/-- Events driving the session state machine. -/
inductive BEvent where
  | cmdStart
  | cmdStop
  | cmdNoop
  | loopExit
  | enqueue
  | dequeue
deriving DecidableEq, Repr

/-- The start-command queue flush (`control_socket` lines 215-219):
`while not audio_q.empty(): audio_q.get_nowait()`.  No producer runs while
the flush loop does (a start is only accepted with no capture loop alive, so
no input stream is open). -/
def flushQueue : List Nat → List Nat
  | [] => []
  | _ :: rest => flushQueue rest

/-- One transition of the `control_socket` session state machine. -/
def bridgeStep (st : BridgeState) : BEvent → BridgeState
  | .cmdStart =>
    if st.live = 0 then
      { st with stopSet := false, q := flushQueue st.q,
                session := st.session + 1, live := 1 }
    else st
  | .cmdStop => { st with stopSet := true }
  | .cmdNoop => st
  | .loopExit => if 0 < st.live then { st with live := st.live - 1 } else st
  | .enqueue =>
    if 0 < st.live then
      let r := audio_callback st.stopSet st.q st.session
      { st with q := r.1 }
    else st
  | .dequeue =>
    if 0 < st.live ∧ ¬st.stopSet then
      match st.q with
      | [] => st
      | t :: rest => { st with q := rest, delivered := st.delivered ++ [(st.session, t)] }
    else st

/-- Run the session state machine over an event sequence. -/
def bridgeRun (events : List BEvent) : BridgeState :=
  events.foldl bridgeStep bridgeInit

/-! ### Control / consumer text messages

The bridge control loop (`control_socket` lines 204-227) parses each text
message with `json.loads`; `json.JSONDecodeError` hits `continue`.  The
transcription consumer loop (`app.py websocket_transcribe` lines 282-306)
likewise wraps `json.loads` in `try/except json.JSONDecodeError: pass`.
The decoder is modelled by its result: `none` for unparseable text, `some`
for a decoded command. -/

/-- Decoded bridge control commands: `{"action": "start"}`,
`{"action": "stop"}`, or any other well-formed JSON object. -/
inductive BCommand where
  | start
  | stop
  | other
deriving DecidableEq, Repr

/-- One iteration of the `control_socket` receive loop (lines 204-227) on a
text message, given the `json.loads` outcome.  Returns the new session state
and the texts sent back to the control client (this loop never replies). -/
def control_text_step (parsed : Option BCommand) (st : BridgeState) :
    BridgeState × List String :=
  match parsed with
  | none => (st, [])
  | some .start => (bridgeStep st .cmdStart, [])
  | some .stop => (bridgeStep st .cmdStop, [])
  | some .other => (bridgeStep st .cmdNoop, [])

/-- Decoded consumer-channel control messages for `websocket_transcribe` in
`app.py`: `{"event": "eos"}` or any other well-formed JSON. -/
inductive TCommand where
  | eos
  | other
deriving DecidableEq, Repr

/-- Session state of `websocket_transcribe` (`app.py`) that a text message
can touch: the worker's inbound queue contents and whether the receive loop
has ended (`break` after forwarding the sentinel). -/
structure TransSessionState where
  inQ : List QItem
  loopDone : Bool
deriving DecidableEq, Repr

/-- The text branch of the `websocket_transcribe` receive loop (`app.py`
lines 282-306), given the `json.loads` outcome: `eos` forwards the sentinel
and breaks, unknown events and decode errors leave everything unchanged.
Returns the new state and the texts sent back on the consumer channel (this
branch never replies). -/
def transcribe_text_step (parsed : Option TCommand) (st : TransSessionState) :
    TransSessionState × List String :=
  match parsed with
  | none => (st, [])
  | some .eos => ({ st with inQ := st.inQ ++ [QItem.eos], loopDone := true }, [])
  | some .other => (st, [])

/-- Message-kind predicates on `app.py` worker output. -/
def AppMsg.isFinal : AppMsg → Bool
  | .Final _ => true
  | _ => false

/-- Is this `app.py` worker message an `{"error": ...}`? -/
def AppMsg.isError : AppMsg → Bool
  | .Error _ => true
  | _ => false

/-- Is this `w-app.py` worker message an `{"error": ...}`? -/
def WMsg.isError : WMsg → Bool
  | .Error _ => true
  | _ => false

/-! # Theorems -/

/-! ## Windowing buffer lemmas (`classify_socket`, `app.py` lines 229-234) -/

/-- Unfolding `drain_windows` when a full window is available. -/
theorem drain_windows_pos (W : Nat) (b : List ℚ) (h : 0 < W ∧ W ≤ b.length) :
    drain_windows W b =
      (b.take W :: (drain_windows W (b.drop W)).1, (drain_windows W (b.drop W)).2) := by
  rw [drain_windows, dif_pos h]

/-- Unfolding `drain_windows` when the buffer is short (or `W = 0`). -/
theorem drain_windows_neg (W : Nat) (b : List ℚ) (h : ¬(0 < W ∧ W ≤ b.length)) :
    drain_windows W b = ([], b) := by
  rw [drain_windows, dif_neg h]

/-- `drain_windows` slices the buffer into full windows plus a short
remainder: concatenating the windows and the remainder restores the buffer,
every window is exactly `W` samples, and the remainder is shorter than `W`. -/
theorem drain_windows_spec (W : Nat) (hW : 0 < W) (b : List ℚ) :
    (drain_windows W b).1.flatten ++ (drain_windows W b).2 = b
    ∧ (∀ w ∈ (drain_windows W b).1, w.length = W)
    ∧ (drain_windows W b).2.length < W := by
  induction b using drain_windows.induct W with
  | case1 x hx ih =>
    obtain ⟨ih1, ih2, ih3⟩ := ih
    rw [drain_windows_pos W x hx]
    refine ⟨?_, ?_, ih3⟩
    · simpa [List.flatten_cons, List.append_assoc, ih1] using List.take_append_drop W x
    · intro w hw
      rcases List.mem_cons.mp hw with h | h
      · subst h
        simpa [List.length_take] using Nat.min_eq_left hx.2
      · exact ih2 w h
  | case2 x hx =>
    rw [drain_windows_neg W x hx]
    refine ⟨by simp, by simp, ?_⟩
    simp only [not_and, not_le] at hx
    exact hx hW

/-- Sum of lengths of equal-length windows. -/
theorem join_length_of_const {W : Nat} :
    ∀ ws : List (List ℚ), (∀ w ∈ ws, w.length = W) → ws.flatten.length = ws.length * W := by
  intro ws
  induction ws with
  | nil => simp
  | cons a l ih =>
    intro h
    have ha : a.length = W := h a (List.mem_cons_self a l)
    have hl := ih (fun w hw => h w (List.mem_cons_of_mem a hw))
    simp only [List.flatten_cons, List.length_append, List.length_cons, ha, hl]
    ring

/-- The number of windows drained from a buffer of `N` samples is `N / W`,
and `N % W` samples remain. -/
theorem drain_windows_count (W : Nat) (hW : 0 < W) (b : List ℚ) :
    (drain_windows W b).1.length = b.length / W
    ∧ (drain_windows W b).2.length = b.length % W := by
  obtain ⟨h1, h2, h3⟩ := drain_windows_spec W hW b
  have hlen : b.length
      = (drain_windows W b).1.length * W + (drain_windows W b).2.length := by
    have hc := congrArg List.length h1
    simpa [List.length_append, join_length_of_const _ h2] using hc.symm
  constructor
  · rw [hlen, Nat.mul_comm, Nat.mul_add_div hW, Nat.div_eq_of_lt h3, Nat.add_zero]
  · rw [hlen, Nat.mul_comm, Nat.mul_add_mod, Nat.mod_eq_of_lt h3]

/-- Invariant of the receive-loop fold: starting from any accumulator with a
short buffer, the fold appends only full windows, the stream is preserved,
and the buffer stays short. -/
theorem classify_fold_spec (W : Nat) (hW : 0 < W) :
    ∀ (chunks : List (List Int)) (acc : List (List ℚ) × List ℚ),
      acc.2.length < W →
      (chunks.foldl (classifyFoldStep W) acc).1.flatten ++ (chunks.foldl (classifyFoldStep W) acc).2
          = acc.1.flatten ++ (acc.2 ++ (chunks.map normalize_int16_to_float32).flatten)
      ∧ (∀ w ∈ (chunks.foldl (classifyFoldStep W) acc).1, w ∈ acc.1 ∨ w.length = W)
      ∧ (chunks.foldl (classifyFoldStep W) acc).2.length < W := by
  intro chunks
  induction chunks with
  | nil =>
    intro acc hacc
    exact ⟨by simp, fun w hw => Or.inl hw, hacc⟩
  | cons c cs ih =>
    intro acc hacc
    obtain ⟨d1, d2, d3⟩ := drain_windows_spec W hW (acc.2 ++ normalize_int16_to_float32 c)
    have hstep : classifyFoldStep W acc c
        = (acc.1 ++ (drain_windows W (acc.2 ++ normalize_int16_to_float32 c)).1,
           (drain_windows W (acc.2 ++ normalize_int16_to_float32 c)).2) := rfl
    obtain ⟨ih1, ih2, ih3⟩ := ih (classifyFoldStep W acc c) (by rw [hstep]; exact d3)
    refine ⟨?_, ?_, ih3⟩
    · rw [List.foldl_cons, ih1, hstep]
      simp only [List.flatten_append, List.map_cons, List.flatten_cons, List.append_assoc]
      rw [← List.append_assoc (drain_windows W (acc.2 ++ normalize_int16_to_float32 c)).1.flatten,
        d1]
      simp [List.append_assoc]
    · intro w hw
      rcases ih2 w (by simpa [List.foldl_cons] using hw) with h | h
      · rw [hstep] at h
        rcases List.mem_append.mp h with h' | h'
        · exact Or.inl h'
        · exact Or.inr (d2 w h')
      · exact Or.inr h

/-! ## Offline-worker loop lemmas (`offline_worker_process`) -/

/-- A worker whose loop has broken consumes nothing further from its queue. -/
theorem appRun_absorb (tr : List ℚ → Except String (List String)) :
    ∀ (items : List QItem) (st : AppWorkerState),
      st.exited = true → items.foldl (appStep tr) st = st := by
  intro items
  induction items with
  | nil => intro st _; rfl
  | cons it its ih =>
    intro st h
    have hstep : appStep tr st it = st := by simp [appStep, h]
    rw [List.foldl_cons, hstep, ih st h]

/-- Shape of a running `app.py` worker step on the end marker with enough
buffered audio: final flush, then the loop breaks. -/
theorem appStep_eos_flush (tr : List ℚ → Except String (List String))
    (st : AppWorkerState) (hex : st.exited = false)
    (hmin : APP_MIN_SAMPLES ≤ st.buf.length) :
    appStep tr st .eos
      = { st with out := st.out ++ appFinalEmit tr st.buf,
                  windows := st.windows ++ [normalize_int16_to_float32 st.buf],
                  exited := true } := by
  simp [appStep, hex, hmin]

/-- Shape of a running `app.py` worker step on the end marker with a tail
below the noise floor: the tail is discarded, nothing is emitted. -/
theorem appStep_eos_short (tr : List ℚ → Except String (List String))
    (st : AppWorkerState) (hex : st.exited = false)
    (hmin : st.buf.length < APP_MIN_SAMPLES) :
    appStep tr st .eos = { st with exited := true } := by
  simp [appStep, hex, Nat.not_le.mpr hmin]

/-- Shape of a running `app.py` worker step on a chunk that fills the buffer
to the partial threshold: the whole buffer is the analysis window and only
its last 16000 samples are retained. -/
theorem appStep_chunk_flush (tr : List ℚ → Except String (List String))
    (st : AppWorkerState) (pcm : List Int) (hex : st.exited = false)
    (hpart : APP_PARTIAL_SAMPLES ≤ (st.buf ++ pcm).length) :
    appStep tr st (.chunk pcm)
      = { st with
            buf := (st.buf ++ pcm).drop ((st.buf ++ pcm).length - APP_OVERLAP_SAMPLES),
            out := st.out ++ appPartialEmit tr (st.buf ++ pcm),
            windows := st.windows ++ [normalize_int16_to_float32 (st.buf ++ pcm)] } := by
  have hpart' : APP_PARTIAL_SAMPLES ≤ st.buf.length + pcm.length := by simpa using hpart
  have hov' : APP_OVERLAP_SAMPLES < st.buf.length + pcm.length := by
    have : APP_OVERLAP_SAMPLES < APP_PARTIAL_SAMPLES := by
      norm_num [APP_OVERLAP_SAMPLES, APP_PARTIAL_SAMPLES]
    omega
  simp [appStep, hex, hpart', hov']

/-- Shape of a running `app.py` worker step on a chunk below the partial
threshold: the chunk is buffered, nothing else happens. -/
theorem appStep_chunk_buffer (tr : List ℚ → Except String (List String))
    (st : AppWorkerState) (pcm : List Int) (hex : st.exited = false)
    (hpart : (st.buf ++ pcm).length < APP_PARTIAL_SAMPLES) :
    appStep tr st (.chunk pcm) = { st with buf := st.buf ++ pcm } := by
  have hpart' : st.buf.length + pcm.length < APP_PARTIAL_SAMPLES := by simpa using hpart
  simp [appStep, hex, Nat.not_le.mpr hpart']

/-- Processing an audio chunk never breaks the worker loop (`app.py`). -/
theorem appStep_chunk_exited (tr : List ℚ → Except String (List String))
    (st : AppWorkerState) (pcm : List Int) :
    (appStep tr st (.chunk pcm)).exited = st.exited := by
  by_cases h : st.exited
  · simp [appStep, h]
  · have h' : st.exited = false := by simpa using h
    by_cases hpart : APP_PARTIAL_SAMPLES ≤ (st.buf ++ pcm).length
    · rw [appStep_chunk_flush tr st pcm h' hpart]
    · rw [appStep_chunk_buffer tr st pcm h' (Nat.not_le.mp hpart)]

/-- The end marker always breaks the worker loop (`app.py` line 107). -/
theorem appStep_eos_exited (tr : List ℚ → Except String (List String))
    (st : AppWorkerState) :
    (appStep tr st .eos).exited = true := by
  by_cases h : st.exited
  · simpa [appStep, h] using h
  · have h' : st.exited = false := by simpa using h
    by_cases hmin : APP_MIN_SAMPLES ≤ st.buf.length
    · rw [appStep_eos_flush tr st h' hmin]
    · rw [appStep_eos_short tr st h' (Nat.not_le.mp hmin)]

/-- While no end marker has been received, the worker loop is still running. -/
theorem appRun_no_eos_exited (tr : List ℚ → Except String (List String)) :
    ∀ (items : List QItem) (st : AppWorkerState),
      QItem.eos ∉ items → st.exited = false →
      (items.foldl (appStep tr) st).exited = false := by
  intro items
  induction items with
  | nil => intro st _ h; exact h
  | cons it its ih =>
    intro st hmem h
    cases it with
    | chunk pcm =>
      rw [List.foldl_cons]
      exact ih _ (fun hc => hmem (List.mem_cons_of_mem _ hc))
        (by rw [appStep_chunk_exited]; exact h)
    | eos => exact absurd (List.mem_cons_self _ _) hmem

/-- `normalize_int16_to_float32` commutes with `take`. -/
theorem normalize_take (n : Nat) (l : List Int) :
    normalize_int16_to_float32 (l.take n) = (normalize_int16_to_float32 l).take n := by
  unfold normalize_int16_to_float32
  exact List.map_take _ l n

/-- `normalize_int16_to_float32` commutes with `drop`. -/
theorem normalize_drop (n : Nat) (l : List Int) :
    normalize_int16_to_float32 (l.drop n) = (normalize_int16_to_float32 l).drop n := by
  unfold normalize_int16_to_float32
  exact List.map_drop _ l n

/-- `normalize_int16_to_float32` preserves length. -/
theorem normalize_length (l : List Int) :
    (normalize_int16_to_float32 l).length = l.length := by
  unfold normalize_int16_to_float32
  exact List.length_map l _

set_option maxRecDepth 4096 in
/-- Single-step preservation of the overlap-retention invariant of the
`app.py` worker: consecutive analysis windows are chained by "the next window
begins with the last second (16000 samples) of the previous one", and while
the loop is running the int16 buffer extends the retained tail of the last
window. -/
theorem appStep_overlap_inv (tr : List ℚ → Except String (List String))
    (st : AppWorkerState) (it : QItem)
    (hchain : List.Chain' (fun w w' => w'.take APP_OVERLAP_SAMPLES
        = w.drop (w.length - APP_OVERLAP_SAMPLES)) st.windows)
    (hlast : st.exited = false → ∀ w, st.windows.getLast? = some w →
        normalize_int16_to_float32 (st.buf.take APP_OVERLAP_SAMPLES)
            = w.drop (w.length - APP_OVERLAP_SAMPLES)
        ∧ APP_OVERLAP_SAMPLES ≤ st.buf.length) :
    List.Chain' (fun w w' => w'.take APP_OVERLAP_SAMPLES
        = w.drop (w.length - APP_OVERLAP_SAMPLES)) (appStep tr st it).windows
    ∧ ((appStep tr st it).exited = false → ∀ w, (appStep tr st it).windows.getLast? = some w →
        normalize_int16_to_float32 ((appStep tr st it).buf.take APP_OVERLAP_SAMPLES)
            = w.drop (w.length - APP_OVERLAP_SAMPLES)
        ∧ APP_OVERLAP_SAMPLES ≤ (appStep tr st it).buf.length) := by
  by_cases hex : st.exited
  · have hres : appStep tr st it = st := by simp [appStep, hex]
    rw [hres]
    exact ⟨hchain, hlast⟩
  · have hex' : st.exited = false := by simpa using hex
    have habsurd : ∀ (st' : AppWorkerState) (P : Prop), st'.exited = true →
        (st'.exited = false → P) := by
      intro st' P h1 h2
      rw [h1] at h2
      exact absurd h2 (by simp)
    have hchainext : ∀ b : List Int,
        (∀ w, st.windows.getLast? = some w →
          normalize_int16_to_float32 (b.take APP_OVERLAP_SAMPLES)
              = w.drop (w.length - APP_OVERLAP_SAMPLES)) →
        List.Chain' (fun w w' => w'.take APP_OVERLAP_SAMPLES
            = w.drop (w.length - APP_OVERLAP_SAMPLES))
          (st.windows ++ [normalize_int16_to_float32 b]) := by
      intro b hb
      rw [List.chain'_append]
      refine ⟨hchain, List.chain'_singleton _, ?_⟩
      intro x hx y hy
      simp only [List.head?_cons, Option.mem_def, Option.some.injEq] at hy
      subst hy
      rw [← normalize_take]
      exact hb x (by simpa using hx)
    cases it with
    | eos =>
      by_cases hmin : APP_MIN_SAMPLES ≤ st.buf.length
      · rw [appStep_eos_flush tr st hex' hmin]
        refine ⟨hchainext st.buf (fun w hw => (hlast hex' w hw).1), ?_⟩
        exact fun h => absurd h (by simp)
      · rw [appStep_eos_short tr st hex' (Nat.not_le.mp hmin)]
        refine ⟨hchain, fun h => absurd h (by simp)⟩
    | chunk pcm =>
      by_cases hpart : APP_PARTIAL_SAMPLES ≤ (st.buf ++ pcm).length
      · rw [appStep_chunk_flush tr st pcm hex' hpart]
        dsimp only
        have hov : APP_OVERLAP_SAMPLES ≤ (st.buf ++ pcm).length := by
          have : APP_OVERLAP_SAMPLES ≤ APP_PARTIAL_SAMPLES := by
            norm_num [APP_OVERLAP_SAMPLES, APP_PARTIAL_SAMPLES]
          omega
        constructor
        · refine hchainext (st.buf ++ pcm) ?_
          intro w hw
          obtain ⟨hpre, hlen⟩ := hlast hex' w hw
          rw [List.take_append_of_le_length hlen]
          exact hpre
        · intro _ w hw
          simp only [List.getLast?_concat, Option.some.injEq] at hw
          subst hw
          have hblen : ((st.buf ++ pcm).drop ((st.buf ++ pcm).length - APP_OVERLAP_SAMPLES)).length
              = APP_OVERLAP_SAMPLES := by
            rw [List.length_drop]
            omega
          refine ⟨?_, ?_⟩
          · rw [List.take_of_length_le (le_of_eq hblen), normalize_drop, normalize_length]
          · exact hblen.ge
      · rw [appStep_chunk_buffer tr st pcm hex' (Nat.not_le.mp hpart)]
        refine ⟨hchain, ?_⟩
        intro _ w hw
        obtain ⟨hpre, hlen⟩ := hlast hex' w hw
        refine ⟨?_, ?_⟩
        · rw [List.take_append_of_le_length hlen]
          exact hpre
        · simp only [List.length_append]
          omega

/-- The analysis windows produced by a whole run of the `app.py` worker form
an overlap chain: every window after the first begins with the last 16000
samples (1 s) of the previous window. -/
theorem appRun_overlap_chain (tr : List ℚ → Except String (List String))
    (items : List QItem) :
    List.Chain' (fun w w' => w'.take APP_OVERLAP_SAMPLES
        = w.drop (w.length - APP_OVERLAP_SAMPLES)) (appRun tr items).windows := by
  suffices h : ∀ (its : List QItem) (st : AppWorkerState),
      List.Chain' (fun w w' => w'.take APP_OVERLAP_SAMPLES
          = w.drop (w.length - APP_OVERLAP_SAMPLES)) st.windows →
      (st.exited = false → ∀ w, st.windows.getLast? = some w →
          normalize_int16_to_float32 (st.buf.take APP_OVERLAP_SAMPLES)
              = w.drop (w.length - APP_OVERLAP_SAMPLES)
          ∧ APP_OVERLAP_SAMPLES ≤ st.buf.length) →
      List.Chain' (fun w w' => w'.take APP_OVERLAP_SAMPLES
          = w.drop (w.length - APP_OVERLAP_SAMPLES)) (its.foldl (appStep tr) st).windows
      ∧ ((its.foldl (appStep tr) st).exited = false → ∀ w,
          (its.foldl (appStep tr) st).windows.getLast? = some w →
          normalize_int16_to_float32 ((its.foldl (appStep tr) st).buf.take APP_OVERLAP_SAMPLES)
              = w.drop (w.length - APP_OVERLAP_SAMPLES)
          ∧ APP_OVERLAP_SAMPLES ≤ (its.foldl (appStep tr) st).buf.length) by
    exact (h items appInit (by simp [appInit]) (by simp [appInit])).1
  intro its
  induction its with
  | nil => intro st h1 h2; exact ⟨h1, h2⟩
  | cons it rest ih =>
    intro st h1 h2
    obtain ⟨g1, g2⟩ := appStep_overlap_inv tr st it h1 h2
    exact ih (appStep tr st it) g1 g2

/-- Every analysis window the `app.py` worker hands to inference holds at
least the minimum-sample floor of audio. -/
theorem appRun_window_sizes (tr : List ℚ → Except String (List String))
    (items : List QItem) :
    ∀ w ∈ (appRun tr items).windows, APP_MIN_SAMPLES ≤ w.length := by
  suffices h : ∀ (its : List QItem) (st : AppWorkerState),
      (∀ w ∈ st.windows, APP_MIN_SAMPLES ≤ w.length) →
      ∀ w ∈ (its.foldl (appStep tr) st).windows, APP_MIN_SAMPLES ≤ w.length by
    exact h items appInit (by simp [appInit])
  intro its
  induction its with
  | nil => intro st h; exact h
  | cons it rest ih =>
    intro st h
    refine ih (appStep tr st it) ?_
    by_cases hex : st.exited
    · have hres : appStep tr st it = st := by simp [appStep, hex]
      rw [hres]; exact h
    · have hex' : st.exited = false := by simpa using hex
      cases it with
      | eos =>
        by_cases hmin : APP_MIN_SAMPLES ≤ st.buf.length
        · rw [appStep_eos_flush tr st hex' hmin]
          intro w hw
          rcases List.mem_append.mp hw with h' | h'
          · exact h w h'
          · simp only [List.mem_singleton] at h'
            subst h'
            rw [normalize_length]
            exact hmin
        · rw [appStep_eos_short tr st hex' (Nat.not_le.mp hmin)]
          exact h
      | chunk pcm =>
        by_cases hpart : APP_PARTIAL_SAMPLES ≤ (st.buf ++ pcm).length
        · rw [appStep_chunk_flush tr st pcm hex' hpart]
          intro w hw
          rcases List.mem_append.mp hw with h' | h'
          · exact h w h'
          · simp only [List.mem_singleton] at h'
            subst h'
            rw [normalize_length]
            have : APP_MIN_SAMPLES ≤ APP_PARTIAL_SAMPLES := by
              norm_num [APP_MIN_SAMPLES, APP_PARTIAL_SAMPLES]
            omega
        · rw [appStep_chunk_buffer tr st pcm hex' (Nat.not_le.mp hpart)]
          exact h

/-! ## Offline-worker loop lemmas (`offline_worker_process`, `w-app.py`) -/

/-- A `w-app.py` worker whose loop has broken consumes nothing further. -/
theorem wRun_absorb (tr : List ℚ → Except String (List String × String)) :
    ∀ (items : List QItem) (st : WWorkerState),
      st.exited = true → items.foldl (wStep tr) st = st := by
  intro items
  induction items with
  | nil => intro st _; rfl
  | cons it its ih =>
    intro st h
    have hstep : wStep tr st it = st := by simp [wStep, h]
    rw [List.foldl_cons, hstep, ih st h]

/-- Shape of a running `w-app.py` worker step on the end marker with enough
buffered audio. -/
theorem wStep_eos_flush (tr : List ℚ → Except String (List String × String))
    (st : WWorkerState) (hex : st.exited = false)
    (hmin : W_MIN_SAMPLES ≤ st.buf.length) :
    wStep tr st .eos
      = { st with out := st.out ++ wFinalEmit tr st.buf,
                  windows := st.windows ++ [st.buf], exited := true } := by
  simp [wStep, hex, hmin]

/-- Shape of a running `w-app.py` worker step on the end marker with a tail
below the noise floor. -/
theorem wStep_eos_short (tr : List ℚ → Except String (List String × String))
    (st : WWorkerState) (hex : st.exited = false)
    (hmin : st.buf.length < W_MIN_SAMPLES) :
    wStep tr st .eos = { st with exited := true } := by
  simp [wStep, hex, Nat.not_le.mpr hmin]

/-- Shape of a running `w-app.py` worker step on a chunk that fills the
buffer to the partial threshold. -/
theorem wStep_chunk_flush (tr : List ℚ → Except String (List String × String))
    (st : WWorkerState) (pcm : List Int) (hex : st.exited = false)
    (hpart : W_PARTIAL_SAMPLES ≤ (st.buf ++ int16_bytes_to_float32 pcm).length) :
    wStep tr st (.chunk pcm)
      = { st with
            buf := (st.buf ++ int16_bytes_to_float32 pcm).drop
                ((st.buf ++ int16_bytes_to_float32 pcm).length - W_OVERLAP_SAMPLES),
            out := st.out ++ wPartialEmit tr (st.buf ++ int16_bytes_to_float32 pcm),
            windows := st.windows ++ [st.buf ++ int16_bytes_to_float32 pcm] } := by
  have hpart' : W_PARTIAL_SAMPLES ≤ st.buf.length + (int16_bytes_to_float32 pcm).length := by
    simpa using hpart
  have hov' : W_OVERLAP_SAMPLES < st.buf.length + (int16_bytes_to_float32 pcm).length := by
    have : W_OVERLAP_SAMPLES < W_PARTIAL_SAMPLES := by
      norm_num [W_OVERLAP_SAMPLES, W_PARTIAL_SAMPLES]
    omega
  simp [wStep, hex, hpart', hov']

/-- Shape of a running `w-app.py` worker step on a chunk below the partial
threshold. -/
theorem wStep_chunk_buffer (tr : List ℚ → Except String (List String × String))
    (st : WWorkerState) (pcm : List Int) (hex : st.exited = false)
    (hpart : (st.buf ++ int16_bytes_to_float32 pcm).length < W_PARTIAL_SAMPLES) :
    wStep tr st (.chunk pcm) = { st with buf := st.buf ++ int16_bytes_to_float32 pcm } := by
  have hpart' : st.buf.length + (int16_bytes_to_float32 pcm).length < W_PARTIAL_SAMPLES := by
    simpa using hpart
  simp [wStep, hex, Nat.not_le.mpr hpart']

/-- Processing an audio chunk never breaks the `w-app.py` worker loop. -/
theorem wStep_chunk_exited (tr : List ℚ → Except String (List String × String))
    (st : WWorkerState) (pcm : List Int) :
    (wStep tr st (.chunk pcm)).exited = st.exited := by
  by_cases h : st.exited
  · simp [wStep, h]
  · have h' : st.exited = false := by simpa using h
    by_cases hpart : W_PARTIAL_SAMPLES ≤ (st.buf ++ int16_bytes_to_float32 pcm).length
    · rw [wStep_chunk_flush tr st pcm h' hpart]
    · rw [wStep_chunk_buffer tr st pcm h' (Nat.not_le.mp hpart)]

/-- The end marker always breaks the `w-app.py` worker loop. -/
theorem wStep_eos_exited (tr : List ℚ → Except String (List String × String))
    (st : WWorkerState) :
    (wStep tr st .eos).exited = true := by
  by_cases h : st.exited
  · simpa [wStep, h] using h
  · have h' : st.exited = false := by simpa using h
    by_cases hmin : W_MIN_SAMPLES ≤ st.buf.length
    · rw [wStep_eos_flush tr st h' hmin]
    · rw [wStep_eos_short tr st h' (Nat.not_le.mp hmin)]

/-- While no end marker has been received, the `w-app.py` worker loop is
still running. -/
theorem wRun_no_eos_exited (tr : List ℚ → Except String (List String × String)) :
    ∀ (items : List QItem) (st : WWorkerState),
      QItem.eos ∉ items → st.exited = false →
      (items.foldl (wStep tr) st).exited = false := by
  intro items
  induction items with
  | nil => intro st _ h; exact h
  | cons it its ih =>
    intro st hmem h
    cases it with
    | chunk pcm =>
      rw [List.foldl_cons]
      exact ih _ (fun hc => hmem (List.mem_cons_of_mem _ hc))
        (by rw [wStep_chunk_exited]; exact h)
    | eos => exact absurd (List.mem_cons_self _ _) hmem

/-- Whatever follows the first end marker on the inbound queue is never
consumed: the run up to and including the end marker determines the final
worker state (`app.py`). -/
theorem appRun_stops_at_eos (tr : List ℚ → Except String (List String))
    (pre rest : List QItem) :
    appRun tr (pre ++ QItem.eos :: rest) = appStep tr (appRun tr pre) .eos := by
  show (pre ++ QItem.eos :: rest).foldl (appStep tr) appInit = _
  rw [List.foldl_append, List.foldl_cons]
  exact appRun_absorb tr rest _ (appStep_eos_exited tr _)

/-- Whatever follows the first end marker is never consumed (`w-app.py`). -/
theorem wRun_stops_at_eos (tr : List ℚ → Except String (List String × String))
    (pre rest : List QItem) :
    wRun tr (pre ++ QItem.eos :: rest) = wStep tr (wRun tr pre) .eos := by
  show (pre ++ QItem.eos :: rest).foldl (wStep tr) wInit = _
  rw [List.foldl_append, List.foldl_cons]
  exact wRun_absorb tr rest _ (wStep_eos_exited tr _)

/-! ## Failing-inference lemmas (claim C4 infrastructure) -/

/-- With an always-raising model, every flush of the `app.py` worker emits
exactly one error message, so the outbound queue holds one `{"error": ...}`
per analysis window and nothing else; the worker still breaks its loop on
the end marker. -/
theorem appRun_all_errors (e : String) (tr : List ℚ → Except String (List String))
    (htr : ∀ b, tr b = .error e) (items : List QItem) :
    ((appRun tr items).out.all AppMsg.isError)
    ∧ (appRun tr items).out.length = (appRun tr items).windows.length := by
  suffices h : ∀ (its : List QItem) (st : AppWorkerState),
      st.out.all AppMsg.isError → st.out.length = st.windows.length →
      ((its.foldl (appStep tr) st).out.all AppMsg.isError)
      ∧ (its.foldl (appStep tr) st).out.length = (its.foldl (appStep tr) st).windows.length by
    exact h items appInit (by simp [appInit]) (by simp [appInit])
  have hfin : ∀ buf, appFinalEmit tr buf = [AppMsg.Error ("final transcription error: " ++ e)] := by
    intro buf
    simp [appFinalEmit, htr]
  have hpar : ∀ buf, appPartialEmit tr buf = [AppMsg.Error ("partial transcription error: " ++ e)] := by
    intro buf
    simp [appPartialEmit, htr]
  intro its
  induction its with
  | nil => intro st h1 h2; exact ⟨h1, h2⟩
  | cons it rest ih =>
    intro st h1 h2
    refine ih (appStep tr st it) ?_ ?_ <;>
      · by_cases hex : st.exited
        · have hres : appStep tr st it = st := by simp [appStep, hex]
          rw [hres]
          first
            | exact h1
            | exact h2
        · have hex' : st.exited = false := by simpa using hex
          cases it with
          | eos =>
            by_cases hmin : APP_MIN_SAMPLES ≤ st.buf.length
            · rw [appStep_eos_flush tr st hex' hmin]
              dsimp only
              first
                | (rw [List.all_append, h1, hfin]
                   simp [AppMsg.isError])
                | (simp only [List.length_append, hfin, h2]
                   simp)
            · rw [appStep_eos_short tr st hex' (Nat.not_le.mp hmin)]
              first
                | exact h1
                | exact h2
          | chunk pcm =>
            by_cases hpart : APP_PARTIAL_SAMPLES ≤ (st.buf ++ pcm).length
            · rw [appStep_chunk_flush tr st pcm hex' hpart]
              dsimp only
              first
                | (rw [List.all_append, h1, hpar]
                   simp [AppMsg.isError])
                | (simp only [List.length_append, hpar, h2]
                   simp)
            · rw [appStep_chunk_buffer tr st pcm hex' (Nat.not_le.mp hpart)]
              first
                | exact h1
                | exact h2

/-- With an always-raising model, every flush of the `w-app.py` worker emits
exactly one error message: one `{"error": ...}` per analysis window, nothing
else. -/
theorem wRun_all_errors (e : String) (tr : List ℚ → Except String (List String × String))
    (htr : ∀ b, tr b = .error e) (items : List QItem) :
    ((wRun tr items).out.all WMsg.isError)
    ∧ (wRun tr items).out.length = (wRun tr items).windows.length := by
  suffices h : ∀ (its : List QItem) (st : WWorkerState),
      st.out.all WMsg.isError → st.out.length = st.windows.length →
      ((its.foldl (wStep tr) st).out.all WMsg.isError)
      ∧ (its.foldl (wStep tr) st).out.length = (its.foldl (wStep tr) st).windows.length by
    exact h items wInit (by simp [wInit]) (by simp [wInit])
  have hfin : ∀ buf, wFinalEmit tr buf = [WMsg.Error ("Final transcription error: " ++ e)] := by
    intro buf
    simp [wFinalEmit, htr]
  have hpar : ∀ buf, wPartialEmit tr buf = [WMsg.Error ("Partial transcription error: " ++ e)] := by
    intro buf
    simp [wPartialEmit, htr]
  intro its
  induction its with
  | nil => intro st h1 h2; exact ⟨h1, h2⟩
  | cons it rest ih =>
    intro st h1 h2
    refine ih (wStep tr st it) ?_ ?_ <;>
      · by_cases hex : st.exited
        · have hres : wStep tr st it = st := by simp [wStep, hex]
          rw [hres]
          first
            | exact h1
            | exact h2
        · have hex' : st.exited = false := by simpa using hex
          cases it with
          | eos =>
            by_cases hmin : W_MIN_SAMPLES ≤ st.buf.length
            · rw [wStep_eos_flush tr st hex' hmin]
              dsimp only
              first
                | (rw [List.all_append, h1, hfin]
                   simp [WMsg.isError])
                | (simp only [List.length_append, hfin, h2]
                   simp)
            · rw [wStep_eos_short tr st hex' (Nat.not_le.mp hmin)]
              first
                | exact h1
                | exact h2
          | chunk pcm =>
            by_cases hpart : W_PARTIAL_SAMPLES ≤ (st.buf ++ int16_bytes_to_float32 pcm).length
            · rw [wStep_chunk_flush tr st pcm hex' hpart]
              dsimp only
              first
                | (rw [List.all_append, h1, hpar]
                   simp [WMsg.isError])
                | (simp only [List.length_append, hpar, h2]
                   simp)
            · rw [wStep_chunk_buffer tr st pcm hex' (Nat.not_le.mp hpart)]
              first
                | exact h1
                | exact h2

/-! ## Classifier decision lemmas (`classify_socket`, `app.py` lines 244-255) -/

/-- On a non-empty score vector, `argmax_idx` is in bounds and the looked-up
confidence is an upper bound of every score: the reported class really is the
top-scoring one. -/
theorem argmax_spec (scores : List ℚ) (hs : scores ≠ []) :
    argmax_idx scores < scores.length
    ∧ ∀ x ∈ scores, x ≤ scores.getD (argmax_idx scores) 0 := by
  cases hm : scores.maximum with
  | bot => exact absurd (List.maximum_eq_none.mp hm) hs
  | coe m =>
    have hmem : m ∈ scores := List.maximum_mem hm
    have hidx : List.indexOf m scores < scores.length := List.indexOf_lt_length.mpr hmem
    have hargmax : argmax_idx scores = List.indexOf m scores := by
      simp [argmax_idx, hm]
    have hget : scores.getD (argmax_idx scores) 0 = m := by
      rw [hargmax, List.getD_eq_getElem _ _ hidx, List.getElem_indexOf]
    refine ⟨by rw [hargmax]; exact hidx, ?_⟩
    intro x hx
    rw [hget]
    exact List.le_maximum_of_mem hx hm

/-! ## Fan-out relay lemmas (`process_audio_block`, `mic_stream_logic`) -/

/-- `process_audio_block` reports success iff at least one live consumer
accepted the send (and failure when there is no live consumer at all). -/
theorem process_audio_block_iff (wsT wsC : Option Bool) :
    process_audio_block wsT wsC = true ↔ true ∈ sendTasks wsT wsC := by
  rcases wsT with _ | tb <;> rcases wsC with _ | cb <;> (try cases tb) <;> (try cases cb) <;>
    decide

/-- While every dispatch succeeds, the streaming loop forwards every block. -/
theorem micLoop_all_success (blocks : List (Option Bool × Option Bool))
    (h : ∀ b ∈ blocks, process_audio_block b.1 b.2 = true) :
    micLoop blocks = blocks := by
  induction blocks with
  | nil => rfl
  | cons b rest ih =>
    rw [micLoop, if_pos (h b (List.mem_cons_self b rest))]
    rw [ih (fun x hx => h x (List.mem_cons_of_mem b hx))]

/-- The streaming loop halts exactly at the first block whose dispatch
reports failure: that block is the last one attempted. -/
theorem micLoop_abort (pre : List (Option Bool × Option Bool))
    (o : Option Bool × Option Bool) (post : List (Option Bool × Option Bool))
    (hpre : ∀ b ∈ pre, process_audio_block b.1 b.2 = true)
    (ho : process_audio_block o.1 o.2 = false) :
    micLoop (pre ++ o :: post) = pre ++ [o] := by
  induction pre with
  | nil =>
    simp only [List.nil_append]
    rw [micLoop, if_neg (by simp [ho])]
  | cons b rest ih =>
    simp only [List.cons_append]
    rw [micLoop, if_pos (hpre b (List.mem_cons_self b rest))]
    rw [ih (fun x hx => hpre x (List.mem_cons_of_mem b hx))]

/-! ## Bridge session state-machine lemmas (`control_socket`) -/

/-- The start-command flush loop always leaves the queue empty. -/
theorem flushQueue_eq_nil : ∀ q : List Nat, flushQueue q = [] := by
  intro q
  induction q with
  | nil => rfl
  | cons t rest ih => rw [flushQueue, ih]

/-- The callback either drops the block or appends exactly this block. -/
theorem audio_callback_queue (stopSet : Bool) (q : List α) (b : α) :
    (audio_callback stopSet q b).1 = q ∨ (audio_callback stopSet q b).1 = q ++ [b] := by
  by_cases hs : stopSet
  · left
    simp [audio_callback, hs]
  · by_cases hq : q.length < QUEUE_MAXSIZE
    · right
      simp [audio_callback, put_nowait, hs, hq]
    · left
      simp [audio_callback, put_nowait, hs, hq]

/-- Each session transition preserves "at most one live capture loop". -/
theorem bridgeStep_live_le_one (st : BridgeState) (e : BEvent) (h : st.live ≤ 1) :
    (bridgeStep st e).live ≤ 1 := by
  cases e with
  | cmdStart =>
    by_cases h0 : st.live = 0
    · simp [bridgeStep, h0]
    · simpa [bridgeStep, h0] using h
  | cmdStop => simpa [bridgeStep] using h
  | cmdNoop => simpa [bridgeStep] using h
  | loopExit =>
    by_cases h0 : 0 < st.live
    · simp only [bridgeStep, h0, if_true]
      omega
    · simpa [bridgeStep, h0] using h
  | enqueue =>
    by_cases h0 : 0 < st.live
    · simpa [bridgeStep, h0] using h
    · simpa [bridgeStep, h0] using h
  | dequeue =>
    by_cases h0 : 0 < st.live ∧ st.stopSet = false
    · cases hq : st.q with
      | nil => simpa [bridgeStep, h0, hq] using h
      | cons t rest => simpa [bridgeStep, h0, hq] using h
    · simpa [bridgeStep, h0] using h

/-- Every state reachable from a fresh control connection has at most one
live capture loop. -/
theorem bridgeRun_live_le_one (events : List BEvent) :
    (bridgeRun events).live ≤ 1 := by
  suffices h : ∀ (evs : List BEvent) (st : BridgeState),
      st.live ≤ 1 → (evs.foldl bridgeStep st).live ≤ 1 by
    exact h events bridgeInit (by simp [bridgeInit])
  intro evs
  induction evs with
  | nil => intro st h; exact h
  | cons e rest ih =>
    intro st h
    exact ih (bridgeStep st e) (bridgeStep_live_le_one st e h)

/-- Each session transition preserves the session-tag invariant: every
queued block was enqueued during the current session, and every delivered
block was delivered during the session that enqueued it. -/
theorem bridgeStep_session_inv (st : BridgeState) (e : BEvent)
    (hq : ∀ t ∈ st.q, t = st.session)
    (hd : ∀ p ∈ st.delivered, p.2 = p.1) :
    (∀ t ∈ (bridgeStep st e).q, t = (bridgeStep st e).session)
    ∧ (∀ p ∈ (bridgeStep st e).delivered, p.2 = p.1) := by
  cases e with
  | cmdStart =>
    by_cases h0 : st.live = 0
    · refine ⟨?_, by simpa [bridgeStep, h0] using hd⟩
      simp [bridgeStep, h0, flushQueue_eq_nil]
    · exact ⟨by simpa [bridgeStep, h0] using hq, by simpa [bridgeStep, h0] using hd⟩
  | cmdStop => exact ⟨by simpa [bridgeStep] using hq, by simpa [bridgeStep] using hd⟩
  | cmdNoop => exact ⟨hq, hd⟩
  | loopExit =>
    by_cases h0 : 0 < st.live
    · exact ⟨by simpa [bridgeStep, h0] using hq, by simpa [bridgeStep, h0] using hd⟩
    · exact ⟨by simpa [bridgeStep, h0] using hq, by simpa [bridgeStep, h0] using hd⟩
  | enqueue =>
    by_cases h0 : 0 < st.live
    · refine ⟨?_, by simpa [bridgeStep, h0] using hd⟩
      simp only [bridgeStep, h0, if_true]
      rcases audio_callback_queue st.stopSet st.q st.session with hc | hc <;> rw [hc]
      · exact hq
      · intro t ht
        rcases List.mem_append.mp ht with h' | h'
        · exact hq t h'
        · simpa using h'
    · exact ⟨by simpa [bridgeStep, h0] using hq, by simpa [bridgeStep, h0] using hd⟩
  | dequeue =>
    by_cases h0 : 0 < st.live ∧ st.stopSet = false
    · cases hqe : st.q with
      | nil => exact ⟨by simpa [bridgeStep, h0, hqe] using hq, by simpa [bridgeStep, h0, hqe] using hd⟩
      | cons t rest =>
        refine ⟨?_, ?_⟩
        · simp only [bridgeStep, h0, if_true, hqe]
          intro x hx
          exact hq x (by rw [hqe]; exact List.mem_cons_of_mem t hx)
        · simp only [bridgeStep, h0, if_true, hqe]
          intro p hp
          rcases List.mem_append.mp hp with h' | h'
          · exact hd p h'
          · have ht : t = st.session := hq t (by rw [hqe]; exact List.mem_cons_self t rest)
            simp only [List.mem_singleton] at h'
            rw [h', ht]
    · exact ⟨by simpa [bridgeStep, h0] using hq, by simpa [bridgeStep, h0] using hd⟩

/-- From a window/remainder tiling of a stream, the window count and the
remainder length are determined by division. -/
theorem tiling_counts (W : Nat) (hW : 0 < W) (ws : List (List ℚ)) (r s : List ℚ)
    (h1 : ws.flatten ++ r = s) (h2 : ∀ w ∈ ws, w.length = W) (h3 : r.length < W) :
    ws.length = s.length / W ∧ r.length = s.length % W := by
  have hlen : s.length = ws.length * W + r.length := by
    have hc := congrArg List.length h1
    simpa [List.length_append, join_length_of_const _ h2] using hc.symm
  constructor
  · rw [hlen, Nat.mul_comm, Nat.mul_add_div hW, Nat.div_eq_of_lt h3, Nat.add_zero]
  · rw [hlen, Nat.mul_comm, Nat.mul_add_mod, Nat.mod_eq_of_lt h3]

/-- If the end marker appears anywhere on the inbound queue, the `app.py`
worker loop has broken by the end of the run. -/
theorem appRun_eos_mem_exited (tr : List ℚ → Except String (List String))
    (items : List QItem) (h : QItem.eos ∈ items) :
    (appRun tr items).exited = true := by
  obtain ⟨s, t, rfl⟩ := List.append_of_mem h
  rw [appRun_stops_at_eos]
  exact appStep_eos_exited tr _

/-- If the end marker appears anywhere on the inbound queue, the `w-app.py`
worker loop has broken by the end of the run. -/
theorem wRun_eos_mem_exited (tr : List ℚ → Except String (List String × String))
    (items : List QItem) (h : QItem.eos ∈ items) :
    (wRun tr items).exited = true := by
  obtain ⟨s, t, rfl⟩ := List.append_of_mem h
  rw [wRun_stops_at_eos]
  exact wStep_eos_exited tr _

/-- Reachable-state form of the session-tag invariant. -/
theorem bridgeRun_session_inv (events : List BEvent) :
    (∀ t ∈ (bridgeRun events).q, t = (bridgeRun events).session)
    ∧ (∀ p ∈ (bridgeRun events).delivered, p.2 = p.1) := by
  suffices h : ∀ (evs : List BEvent) (st : BridgeState),
      (∀ t ∈ st.q, t = st.session) → (∀ p ∈ st.delivered, p.2 = p.1) →
      (∀ t ∈ (evs.foldl bridgeStep st).q, t = (evs.foldl bridgeStep st).session)
      ∧ (∀ p ∈ (evs.foldl bridgeStep st).delivered, p.2 = p.1) by
    exact h events bridgeInit (by simp [bridgeInit]) (by simp [bridgeInit])
  intro evs
  induction evs with
  | nil => intro st h1 h2; exact ⟨h1, h2⟩
  | cons e rest ih =>
    intro st h1 h2
    obtain ⟨g1, g2⟩ := bridgeStep_session_inv st e h1 h2
    exact ih (bridgeStep st e) g1 g2

/-! # Claim theorems -/

/-- C1 (counterexample): the claimed windowing-buffer arithmetic — pushing
chunks totalling `k*W + r` samples yields exactly `k` windows, each exactly
`W` samples long — fails on the transcription worker of `app.py` (required
length `W = APP_PARTIAL_SAMPLES = 24000`, overlap `O = 16000`): two pushed
chunks of 24000 samples each (`k = 2`, `r = 0`) produce windows of lengths
24000 and 40000 (the second flush transcribes the whole accumulated buffer),
and a single pushed chunk of 48000 samples (`k = 2`, `r = 0`) produces only
one window, not two. -/
theorem c1_counterexample :
    ((appRun (fun _ => Except.ok ([] : List String))
        [QItem.chunk (List.replicate 24000 0), QItem.chunk (List.replicate 24000 0)]).windows.map
          List.length = [24000, 40000])
    ∧ ¬(∀ w ∈ (appRun (fun _ => Except.ok ([] : List String))
        [QItem.chunk (List.replicate 24000 0), QItem.chunk (List.replicate 24000 0)]).windows,
          w.length = APP_PARTIAL_SAMPLES)
    ∧ (appRun (fun _ => Except.ok ([] : List String))
        [QItem.chunk (List.replicate 48000 0)]).windows.length = 1 := by
  set tr0 : List ℚ → Except String (List String) := fun _ => Except.ok [] with htr0
  set A := List.replicate 24000 (0 : Int) with hA
  have hAlen : A.length = 24000 := by rw [hA, List.length_replicate]
  have hbuf0 : appInit.buf = [] := rfl
  set st1 := appStep tr0 appInit (.chunk A) with hst1
  have hp1 : APP_PARTIAL_SAMPLES ≤ (appInit.buf ++ A).length := by
    rw [List.length_append, hAlen, hbuf0, List.length_nil]
    norm_num [APP_PARTIAL_SAMPLES]
  have h1 : st1 = { appInit with
      buf := (appInit.buf ++ A).drop ((appInit.buf ++ A).length - APP_OVERLAP_SAMPLES),
      out := appInit.out ++ appPartialEmit tr0 (appInit.buf ++ A),
      windows := appInit.windows ++ [normalize_int16_to_float32 (appInit.buf ++ A)] } :=
    appStep_chunk_flush tr0 appInit A rfl hp1
  have hbuf1 : st1.buf.length = 16000 := by
    rw [h1]
    dsimp only
    rw [List.length_drop, List.length_append, hAlen, hbuf0, List.length_nil]
    norm_num [APP_OVERLAP_SAMPLES]
  have hex1 : st1.exited = false := by
    rw [h1]
    rfl
  have hwin1 : st1.windows.map List.length = [24000] := by
    rw [h1]
    dsimp only
    rw [show appInit.windows = [] from rfl, List.nil_append, List.map_cons, List.map_nil,
      normalize_length, List.length_append, hAlen, hbuf0, List.length_nil]
  have hp2 : APP_PARTIAL_SAMPLES ≤ (st1.buf ++ A).length := by
    rw [List.length_append, hbuf1, hAlen]
    norm_num [APP_PARTIAL_SAMPLES]
  have h2 : appStep tr0 st1 (.chunk A) = { st1 with
      buf := (st1.buf ++ A).drop ((st1.buf ++ A).length - APP_OVERLAP_SAMPLES),
      out := st1.out ++ appPartialEmit tr0 (st1.buf ++ A),
      windows := st1.windows ++ [normalize_int16_to_float32 (st1.buf ++ A)] } :=
    appStep_chunk_flush tr0 st1 A hex1 hp2
  have hrun : appRun tr0 [QItem.chunk A, QItem.chunk A] = appStep tr0 st1 (.chunk A) := by
    rw [hst1]
    show [QItem.chunk A, QItem.chunk A].foldl (appStep tr0) appInit = _
    rw [List.foldl_cons, List.foldl_cons, List.foldl_nil]
  have hmap : (appRun tr0 [QItem.chunk A, QItem.chunk A]).windows.map List.length
      = [24000, 40000] := by
    rw [hrun, h2]
    dsimp only
    rw [List.map_append, hwin1, List.map_cons, List.map_nil,
      normalize_length, List.length_append, hbuf1, hAlen]
    norm_num
  refine ⟨hmap, ?_, ?_⟩
  · intro hall
    have h40 : (40000 : Nat) ∈ (appRun tr0 [QItem.chunk A, QItem.chunk A]).windows.map
        List.length := by
      rw [hmap]
      simp
    obtain ⟨w, hw, hlen⟩ := List.mem_map.mp h40
    have := hall w hw
    rw [this] at hlen
    norm_num [APP_PARTIAL_SAMPLES] at hlen
  · have hp3 : APP_PARTIAL_SAMPLES ≤ (appInit.buf ++ List.replicate 48000 (0 : Int)).length := by
      rw [List.length_append, hbuf0, List.length_nil, List.length_replicate]
      norm_num [APP_PARTIAL_SAMPLES]
    have h3 : appStep tr0 appInit (.chunk (List.replicate 48000 0)) = { appInit with
        buf := (appInit.buf ++ List.replicate 48000 (0 : Int)).drop
            ((appInit.buf ++ List.replicate 48000 (0 : Int)).length - APP_OVERLAP_SAMPLES),
        out := appInit.out ++ appPartialEmit tr0 (appInit.buf ++ List.replicate 48000 (0 : Int)),
        windows := appInit.windows
            ++ [normalize_int16_to_float32 (appInit.buf ++ List.replicate 48000 (0 : Int))] } :=
      appStep_chunk_flush tr0 appInit (List.replicate 48000 0) rfl hp3
    have e1 : appRun tr0 [QItem.chunk (List.replicate 48000 0)]
        = appStep tr0 appInit (.chunk (List.replicate 48000 0)) := by
      show [QItem.chunk (List.replicate 48000 (0 : Int))].foldl (appStep tr0) appInit = _
      rw [List.foldl_cons, List.foldl_nil]
    rw [e1, h3]
    dsimp only
    rw [show appInit.windows = [] from rfl, List.nil_append, List.length_cons, List.length_nil]

/-- C1 (amended): Windowing-buffer arithmetic.  Classifier instance
(`classify_socket`, overlap 0): pushing chunks whose normalized samples
total `N = k*W + r` (`r < W`) yields exactly `k = N / W` windows in arrival
order, each exactly `W` samples long, tiling the pushed stream, with the
`r = N % W` leftover samples remaining buffered.  Transcription-worker
instance (`app.py`, overlap 16000): each flush hands the *entire*
accumulated buffer to inference (at least the 4800-sample floor, not a fixed
length), and after each flush only the final second is retained, so every
window after the first begins with the last 16000 samples of the previous
window. -/
theorem c1_windowing_amended (W : Nat) (hW : 0 < W) (chunks : List (List Int))
    (tr : List ℚ → Except String (List String)) (items : List QItem) :
    ((classify_run W chunks).1.flatten ++ (classify_run W chunks).2
        = (chunks.map normalize_int16_to_float32).flatten)
    ∧ (∀ w ∈ (classify_run W chunks).1, w.length = W)
    ∧ ((classify_run W chunks).1.length
        = (chunks.map normalize_int16_to_float32).flatten.length / W)
    ∧ ((classify_run W chunks).2.length
        = (chunks.map normalize_int16_to_float32).flatten.length % W)
    ∧ List.Chain' (fun w w' => w'.take APP_OVERLAP_SAMPLES
        = w.drop (w.length - APP_OVERLAP_SAMPLES)) (appRun tr items).windows
    ∧ (∀ w ∈ (appRun tr items).windows, APP_MIN_SAMPLES ≤ w.length) := by
  obtain ⟨h1, h2, h3⟩ := classify_fold_spec W hW chunks ([], []) (by simpa using hW)
  have h1' : (classify_run W chunks).1.flatten ++ (classify_run W chunks).2
      = (chunks.map normalize_int16_to_float32).flatten := by
    simpa [classify_run] using h1
  have h2' : ∀ w ∈ (classify_run W chunks).1, w.length = W := by
    intro w hw
    rcases h2 w (by simpa [classify_run] using hw) with h | h
    · exact absurd h (List.not_mem_nil w)
    · exact h
  have h3' : (classify_run W chunks).2.length < W := by
    simpa [classify_run] using h3
  obtain ⟨hc1, hc2⟩ := tiling_counts W hW (classify_run W chunks).1
    (classify_run W chunks).2 _ h1' h2' h3'
  exact ⟨h1', h2', hc1, hc2, appRun_overlap_chain tr items, appRun_window_sizes tr items⟩

/-- C1 (witness): the amended windowing theorem applied at `W = 2`,
chunks `[[1, 2, 3]]`, an inference oracle returning no segments, and an
empty worker inbound queue. -/
theorem c1_windowing_amended_witness :
    (0 < 2)
    ∧ (((classify_run 2 [[1, 2, 3]]).1.flatten ++ (classify_run 2 [[1, 2, 3]]).2
          = ([[1, 2, 3]].map normalize_int16_to_float32).flatten)
        ∧ (∀ w ∈ (classify_run 2 [[1, 2, 3]]).1, w.length = 2)
        ∧ ((classify_run 2 [[1, 2, 3]]).1.length
            = ([[1, 2, 3]].map normalize_int16_to_float32).flatten.length / 2)
        ∧ ((classify_run 2 [[1, 2, 3]]).2.length
            = ([[1, 2, 3]].map normalize_int16_to_float32).flatten.length % 2)
        ∧ List.Chain' (fun w w' => w'.take APP_OVERLAP_SAMPLES
            = w.drop (w.length - APP_OVERLAP_SAMPLES))
            (appRun (fun _ => Except.ok ([] : List String)) []).windows
        ∧ (∀ w ∈ (appRun (fun _ => Except.ok ([] : List String)) []).windows,
            APP_MIN_SAMPLES ≤ w.length)) :=
  ⟨by decide,
    c1_windowing_amended 2 (by decide) [[1, 2, 3]] (fun _ => Except.ok ([] : List String)) []⟩

/-- C2: Fan-out relay policy (`process_audio_block`, `mic_stream_logic`).
The send reports success iff at least one live consumer accepted the block;
the streaming loop runs to completion when every dispatch succeeds and halts
exactly at the first block whose dispatch fails; a consumer that accepts
every send (transcriber `A` always succeeding) keeps the loop alive for
every block even while the other consumer fails; when both consumers fail,
the loop halts after the first block. -/
theorem c2_fanout_policy :
    (∀ wsT wsC : Option Bool, process_audio_block wsT wsC = true ↔ true ∈ sendTasks wsT wsC)
    ∧ (∀ blocks : List (Option Bool × Option Bool),
        (∀ b ∈ blocks, process_audio_block b.1 b.2 = true) → micLoop blocks = blocks)
    ∧ (∀ (pre : List (Option Bool × Option Bool)) (o : Option Bool × Option Bool)
        (post : List (Option Bool × Option Bool)),
        (∀ b ∈ pre, process_audio_block b.1 b.2 = true) →
        process_audio_block o.1 o.2 = false →
        micLoop (pre ++ o :: post) = pre ++ [o])
    ∧ (∀ blocks : List (Option Bool × Option Bool),
        (∀ b ∈ blocks, b.1 = some true) → micLoop blocks = blocks)
    ∧ (∀ post : List (Option Bool × Option Bool),
        micLoop ((some false, some false) :: post) = [(some false, some false)]) := by
  refine ⟨process_audio_block_iff, micLoop_all_success, micLoop_abort, ?_, ?_⟩
  · intro blocks h
    refine micLoop_all_success blocks ?_
    intro b hb
    rw [process_audio_block_iff]
    rw [show b.1 = some true from h b hb]
    simp [sendTasks]
  · intro post
    exact micLoop_abort [] (some false, some false) post (by simp) (by decide)

/-- C2 (witness): the fan-out policy applied to the two-consumer scenarios
of the spec: consumers {A succeeds, B fails} on two blocks, and
{A fails, B fails} on one block followed by another. -/
theorem c2_fanout_policy_witness :
    ((∀ b ∈ [((some true, some false) : Option Bool × Option Bool), (some true, some false)],
        b.1 = some true)
      ∧ micLoop [((some true, some false) : Option Bool × Option Bool), (some true, some false)]
          = [(some true, some false), (some true, some false)])
    ∧ micLoop [((some false, some false) : Option Bool × Option Bool), (some true, some true)]
        = [(some false, some false)]
    ∧ (process_audio_block (some true) (some false) = true ↔
        true ∈ sendTasks (some true) (some false)) :=
  ⟨⟨by decide,
      c2_fanout_policy.2.2.2.1 [(some true, some false), (some true, some false)] (by decide)⟩,
    c2_fanout_policy.2.2.2.2 [(some true, some true)],
    c2_fanout_policy.1 (some true) (some false)⟩

/-- C3 (counterexample): the claim "if the buffered tail holds at least the
minimum-sample floor and inference succeeds it emits exactly one Final
result" fails on `app.py`: the final flush emits one `{"final": seg.text}`
*per segment* (line 103-104), so a successful transcription returning two
segments yields two Final results for a 4800-sample tail (± the floor). -/
theorem c3_counterexample :
    APP_MIN_SAMPLES ≤ (appRun (fun _ => Except.ok ["hello", "world"])
        [QItem.chunk (List.replicate 4800 0)]).buf.length
    ∧ (appRun (fun _ => Except.ok ["hello", "world"])
        [QItem.chunk (List.replicate 4800 0), QItem.eos]).out
        = [AppMsg.Final "hello", AppMsg.Final "world"]
    ∧ ((appRun (fun _ => Except.ok ["hello", "world"])
        [QItem.chunk (List.replicate 4800 0), QItem.eos]).out.countP
          (fun m => AppMsg.isFinal m)) = 2 := by
  set tr0 : List ℚ → Except String (List String) := fun _ => Except.ok ["hello", "world"]
    with htr0
  set C := List.replicate 4800 (0 : Int) with hC
  have hClen : C.length = 4800 := by rw [hC, List.length_replicate]
  have hbuf0 : appInit.buf = [] := rfl
  have hshort : (appInit.buf ++ C).length < APP_PARTIAL_SAMPLES := by
    rw [List.length_append, hbuf0, List.length_nil, hClen]
    norm_num [APP_PARTIAL_SAMPLES]
  have h1 : appStep tr0 appInit (.chunk C) = { appInit with buf := appInit.buf ++ C } :=
    appStep_chunk_buffer tr0 appInit C rfl hshort
  have e1 : appRun tr0 [QItem.chunk C] = appStep tr0 appInit (.chunk C) := by
    show [QItem.chunk C].foldl (appStep tr0) appInit = _
    rw [List.foldl_cons, List.foldl_nil]
  have hbuf1 : (appRun tr0 [QItem.chunk C]).buf.length = 4800 := by
    rw [e1, h1]
    dsimp only
    rw [List.length_append, hbuf0, List.length_nil, hClen]
  have hmin : APP_MIN_SAMPLES ≤ (appStep tr0 appInit (.chunk C)).buf.length := by
    rw [← e1, hbuf1]
    norm_num [APP_MIN_SAMPLES]
  have hex1 : (appStep tr0 appInit (.chunk C)).exited = false := by
    rw [appStep_chunk_exited]
    rfl
  have h2 : appStep tr0 (appStep tr0 appInit (.chunk C)) .eos
      = { appStep tr0 appInit (.chunk C) with
          out := (appStep tr0 appInit (.chunk C)).out
            ++ appFinalEmit tr0 (appStep tr0 appInit (.chunk C)).buf,
          windows := (appStep tr0 appInit (.chunk C)).windows
            ++ [normalize_int16_to_float32 (appStep tr0 appInit (.chunk C)).buf],
          exited := true } :=
    appStep_eos_flush tr0 (appStep tr0 appInit (.chunk C)) hex1 hmin
  have e2 : appRun tr0 [QItem.chunk C, QItem.eos]
      = appStep tr0 (appStep tr0 appInit (.chunk C)) .eos := by
    show [QItem.chunk C, QItem.eos].foldl (appStep tr0) appInit = _
    rw [List.foldl_cons, List.foldl_cons, List.foldl_nil]
  have hout : (appRun tr0 [QItem.chunk C, QItem.eos]).out
      = [AppMsg.Final "hello", AppMsg.Final "world"] := by
    rw [e2, h2]
    dsimp only
    rw [h1]
    dsimp only
    rw [show appInit.out = [] from rfl, List.nil_append]
    simp [appFinalEmit, htr0]
  refine ⟨?_, hout, ?_⟩
  · rw [hbuf1]
    norm_num [APP_MIN_SAMPLES]
  · rw [hout]
    decide

/-- C3 (amended): End-of-stream drain.  After the end marker is placed on
the inbound queue, both workers perform one final flush and break their
loop, and nothing queued after the marker is ever consumed.  On a tail of at
least the minimum-sample floor with successful inference, the `app.py`
worker emits one Final result per returned segment, and the `w-app.py`
worker emits exactly one Final result when the joined segment text is
non-empty and none when it is empty; a tail below the floor emits nothing.
(The real-time bound on process exit is enforced outside the worker by the
parent's `join(timeout)`/`terminate` calls.) -/
theorem c3_eos_drain_amended
    (trA : List ℚ → Except String (List String))
    (trW : List ℚ → Except String (List String × String))
    (pre rest preW restW : List QItem)
    (hpre : QItem.eos ∉ pre) (hpreW : QItem.eos ∉ preW) :
    ((appRun trA (pre ++ QItem.eos :: rest)).exited = true)
    ∧ (appRun trA (pre ++ QItem.eos :: rest) = appStep trA (appRun trA pre) .eos)
    ∧ ((appRun trA pre).buf.length < APP_MIN_SAMPLES →
        (appRun trA (pre ++ QItem.eos :: rest)).out = (appRun trA pre).out)
    ∧ (∀ segs, APP_MIN_SAMPLES ≤ (appRun trA pre).buf.length →
        trA (normalize_int16_to_float32 (appRun trA pre).buf) = .ok segs →
        (appRun trA (pre ++ QItem.eos :: rest)).out
          = (appRun trA pre).out ++ segs.map AppMsg.Final)
    ∧ ((wRun trW (preW ++ QItem.eos :: restW)).exited = true)
    ∧ ((wRun trW preW).buf.length < W_MIN_SAMPLES →
        (wRun trW (preW ++ QItem.eos :: restW)).out = (wRun trW preW).out)
    ∧ (∀ segs lang, W_MIN_SAMPLES ≤ (wRun trW preW).buf.length →
        trW (wRun trW preW).buf = .ok (segs, lang) →
        (wRun trW (preW ++ QItem.eos :: restW)).out
          = (wRun trW preW).out
            ++ (if join_segments segs = "" then []
                else [WMsg.Final (join_segments segs) lang])) := by
  have hexA : (appRun trA pre).exited = false :=
    appRun_no_eos_exited trA pre appInit hpre rfl
  have hexW : (wRun trW preW).exited = false :=
    wRun_no_eos_exited trW preW wInit hpreW rfl
  refine ⟨?_, appRun_stops_at_eos trA pre rest, ?_, ?_, ?_, ?_, ?_⟩
  · rw [appRun_stops_at_eos]
    exact appStep_eos_exited trA _
  · intro hshort
    rw [appRun_stops_at_eos, appStep_eos_short trA _ hexA hshort]
  · intro segs hmin htr
    rw [appRun_stops_at_eos, appStep_eos_flush trA _ hexA hmin]
    dsimp only
    rw [appFinalEmit, htr]
  · rw [wRun_stops_at_eos]
    exact wStep_eos_exited trW _
  · intro hshort
    rw [wRun_stops_at_eos, wStep_eos_short trW _ hexW hshort]
  · intro segs lang hmin htr
    rw [wRun_stops_at_eos, wStep_eos_flush trW _ hexW hmin]
    dsimp only
    rw [wFinalEmit, htr]

/-- C3 (witness): the amended end-of-stream drain applied to concrete runs:
an `app.py` worker fed one 4800-sample chunk (tail at the floor, inference
returning one segment) and a `w-app.py` worker fed nothing (tail below the
floor). -/
theorem c3_eos_drain_amended_witness :
    (QItem.eos ∉ [QItem.chunk (List.replicate 4800 0)])
    ∧ (QItem.eos ∉ ([] : List QItem))
    ∧ ((appRun (fun _ => Except.ok ["hi"])
        ([QItem.chunk (List.replicate 4800 0)] ++ QItem.eos :: [])).exited = true)
    ∧ ((wRun (fun _ => Except.ok (["hi"], "en")) ([] ++ QItem.eos :: [])).exited = true)
    ∧ ((wRun (fun _ => Except.ok (["hi"], "en")) []).buf.length < W_MIN_SAMPLES →
        (wRun (fun _ => Except.ok (["hi"], "en")) ([] ++ QItem.eos :: [])).out
          = (wRun (fun _ => Except.ok (["hi"], "en")) []).out) := by
  have h := c3_eos_drain_amended (fun _ => Except.ok ["hi"])
    (fun _ => Except.ok (["hi"], "en"))
    [QItem.chunk (List.replicate 4800 0)] [] [] [] (by decide) (by decide)
  exact ⟨by decide, by decide, h.1, h.2.2.2.2.1, h.2.2.2.2.2.1⟩

/-- C4: Worker-internal inference-failure isolation.  A raising inference
call on a partial-flush window is caught: the worker puts exactly one Error
message on its outbound queue for that window and its loop keeps running.
With a model that raises on every call, both workers produce zero Partial
and zero Final results — every outbound message is an Error, one per
attempted analysis window — and both still break their loop when the end
marker arrives. -/
theorem c4_inference_failure_isolation
    (e : String)
    (trA : List ℚ → Except String (List String))
    (trW : List ℚ → Except String (List String × String))
    (htrA : ∀ b, trA b = .error e) (htrW : ∀ b, trW b = .error e)
    (itemsA itemsW : List QItem) :
    (∀ (tr' : List ℚ → Except String (List String)) (st : AppWorkerState) (pcm : List Int),
        st.exited = false → APP_PARTIAL_SAMPLES ≤ (st.buf ++ pcm).length →
        tr' (normalize_int16_to_float32 (st.buf ++ pcm)) = .error e →
        (appStep tr' st (.chunk pcm)).out
            = st.out ++ [AppMsg.Error ("partial transcription error: " ++ e)]
        ∧ (appStep tr' st (.chunk pcm)).exited = false)
    ∧ ((appRun trA itemsA).out.all AppMsg.isError)
    ∧ ((appRun trA itemsA).out.length = (appRun trA itemsA).windows.length)
    ∧ (QItem.eos ∈ itemsA → (appRun trA itemsA).exited = true)
    ∧ ((wRun trW itemsW).out.all WMsg.isError)
    ∧ ((wRun trW itemsW).out.length = (wRun trW itemsW).windows.length)
    ∧ (QItem.eos ∈ itemsW → (wRun trW itemsW).exited = true) := by
  obtain ⟨ha1, ha2⟩ := appRun_all_errors e trA htrA itemsA
  obtain ⟨hw1, hw2⟩ := wRun_all_errors e trW htrW itemsW
  refine ⟨?_, ha1, ha2, appRun_eos_mem_exited trA itemsA, hw1, hw2,
    wRun_eos_mem_exited trW itemsW⟩
  intro tr' st pcm hex hpart herr
  rw [appStep_chunk_flush tr' st pcm hex hpart]
  dsimp only
  constructor
  · rw [appPartialEmit, herr]
  · exact hex

/-- C4 (witness): the isolation theorem applied to an always-raising model
fed one window-filling chunk and the end marker, for both workers. -/
theorem c4_inference_failure_isolation_witness :
    ((∀ b, (fun _ : List ℚ => (Except.error "boom" : Except String (List String))) b
        = .error "boom")
      ∧ (∀ b, (fun _ : List ℚ => (Except.error "boom" : Except String (List String × String))) b
        = .error "boom"))
    ∧ ((appRun (fun _ => Except.error "boom")
        [QItem.chunk (List.replicate 24000 0), QItem.eos]).out.all AppMsg.isError)
    ∧ ((appRun (fun _ => Except.error "boom")
        [QItem.chunk (List.replicate 24000 0), QItem.eos]).out.length
      = (appRun (fun _ => Except.error "boom")
        [QItem.chunk (List.replicate 24000 0), QItem.eos]).windows.length)
    ∧ (QItem.eos ∈ [QItem.chunk (List.replicate 24000 0), QItem.eos] →
        (appRun (fun _ => Except.error "boom")
          [QItem.chunk (List.replicate 24000 0), QItem.eos]).exited = true)
    ∧ ((wRun (fun _ => Except.error "boom") [QItem.eos]).out.all WMsg.isError) := by
  have h := c4_inference_failure_isolation "boom"
    (fun _ => Except.error "boom") (fun _ => Except.error "boom")
    (fun _ => rfl) (fun _ => rfl)
    [QItem.chunk (List.replicate 24000 0), QItem.eos] [QItem.eos]
  exact ⟨⟨fun _ => rfl, fun _ => rfl⟩, h.2.1, h.2.2.1, h.2.2.2.1, h.2.2.2.2.1⟩

/-- C5: Single-capture-loop invariant (`control_socket`, lines 211-227).
Along every event sequence from a fresh control connection, at most one
capture loop is live at any instant; a start command received while a loop
is alive is a complete no-op (the whole session state is unchanged), and a
stop command received while no loop is running leaves the session idle (no
loop, queue, session counter and delivery log untouched — only the stop
signal is set). -/
theorem c5_single_capture_loop :
    (∀ events : List BEvent, (bridgeRun events).live ≤ 1)
    ∧ (∀ st : BridgeState, 0 < st.live → bridgeStep st .cmdStart = st)
    ∧ (∀ st : BridgeState, st.live = 0 →
        (bridgeStep st .cmdStop).live = 0
        ∧ (bridgeStep st .cmdStop).q = st.q
        ∧ (bridgeStep st .cmdStop).session = st.session
        ∧ (bridgeStep st .cmdStop).delivered = st.delivered) := by
  refine ⟨bridgeRun_live_le_one, ?_, ?_⟩
  · intro st h
    have h0 : ¬st.live = 0 := by omega
    simp [bridgeStep, h0]
  · intro st h
    exact ⟨by simp [bridgeStep, h], by simp [bridgeStep], by simp [bridgeStep],
      by simp [bridgeStep]⟩

/-- C5 (witness): the invariant applied to a concrete command sequence
(start, start-while-streaming, stop, stop-while-idle) and to concrete
states. -/
theorem c5_single_capture_loop_witness :
    (bridgeRun [BEvent.cmdStart, BEvent.cmdStart, BEvent.cmdStop, BEvent.loopExit,
        BEvent.cmdStop]).live ≤ 1
    ∧ (0 < (⟨1, false, 3, [3], []⟩ : BridgeState).live)
    ∧ bridgeStep (⟨1, false, 3, [3], []⟩ : BridgeState) .cmdStart = ⟨1, false, 3, [3], []⟩
    ∧ ((⟨0, false, 2, [], [(1, 1)]⟩ : BridgeState).live = 0)
    ∧ (bridgeStep (⟨0, false, 2, [], [(1, 1)]⟩ : BridgeState) .cmdStop).live = 0 :=
  ⟨c5_single_capture_loop.1 [BEvent.cmdStart, BEvent.cmdStart, BEvent.cmdStop, BEvent.loopExit,
      BEvent.cmdStop],
    by decide,
    c5_single_capture_loop.2.1 ⟨1, false, 3, [3], []⟩ (by decide),
    by decide,
    (c5_single_capture_loop.2.2 ⟨0, false, 2, [], [(1, 1)]⟩ (by decide)).1⟩

/-- C6: Start-time queue flush (`control_socket` lines 214-219).  The flush
loop drains any queue to empty; an accepted start (no live loop) leaves the
frame queue empty before the capture loop is launched; and along every event
sequence, every queued block carries the current session number and every
delivered block was delivered in the session that enqueued it — no block of
a prior session is ever delivered to the consumers of a new one. -/
theorem c6_start_flush :
    (∀ q : List Nat, flushQueue q = [])
    ∧ (∀ st : BridgeState, st.live = 0 → (bridgeStep st .cmdStart).q = [])
    ∧ (∀ events : List BEvent,
        (∀ t ∈ (bridgeRun events).q, t = (bridgeRun events).session)
        ∧ ∀ p ∈ (bridgeRun events).delivered, p.2 = p.1) := by
  refine ⟨flushQueue_eq_nil, ?_, bridgeRun_session_inv⟩
  intro st h
  simp [bridgeStep, h, flushQueue_eq_nil]

/-- C6 (witness): the flush guarantee applied to a concrete stale queue, a
concrete idle state with stale contents, and a concrete session-restart
event sequence. -/
theorem c6_start_flush_witness :
    flushQueue [7, 8, 9] = []
    ∧ ((⟨0, true, 1, [1, 1], []⟩ : BridgeState).live = 0)
    ∧ (bridgeStep (⟨0, true, 1, [1, 1], []⟩ : BridgeState) .cmdStart).q = []
    ∧ (∀ t ∈ (bridgeRun [BEvent.cmdStart, BEvent.enqueue, BEvent.cmdStop, BEvent.loopExit,
          BEvent.cmdStart, BEvent.enqueue, BEvent.dequeue]).q,
        t = (bridgeRun [BEvent.cmdStart, BEvent.enqueue, BEvent.cmdStop, BEvent.loopExit,
          BEvent.cmdStart, BEvent.enqueue, BEvent.dequeue]).session)
    ∧ (∀ p ∈ (bridgeRun [BEvent.cmdStart, BEvent.enqueue, BEvent.cmdStop, BEvent.loopExit,
          BEvent.cmdStart, BEvent.enqueue, BEvent.dequeue]).delivered,
        p.2 = p.1) :=
  ⟨c6_start_flush.1 [7, 8, 9],
    by decide,
    c6_start_flush.2.1 ⟨0, true, 1, [1, 1], []⟩ (by decide),
    (c6_start_flush.2.2 [BEvent.cmdStart, BEvent.enqueue, BEvent.cmdStop, BEvent.loopExit,
      BEvent.cmdStart, BEvent.enqueue, BEvent.dequeue]).1,
    (c6_start_flush.2.2 [BEvent.cmdStart, BEvent.enqueue, BEvent.cmdStop, BEvent.loopExit,
      BEvent.cmdStart, BEvent.enqueue, BEvent.dequeue]).2⟩

/-- C7 (counterexample): the claim "if the queue is full the block is
dropped with a warning, otherwise a copy of the block is enqueued, and
drop-on-full is the only data loss path in the callback" fails: when the
stop signal is set (`audio_callback` line 45 guards the enqueue with
`not stop_event.is_set()`), an arriving block is discarded without being
enqueued and without a queue-full warning even though the queue is empty. -/
theorem c7_counterexample :
    audio_callback true ([] : List Nat) 0 = ([], false)
    ∧ ([] : List Nat).length < QUEUE_MAXSIZE
    ∧ (0 : Nat) ∉ (audio_callback true ([] : List Nat) 0).1 := by
  decide

/-- C7 (amended): Capture-callback safety.  The callback is a total
function — the only exception the enqueue can raise (`queue.Full`) is caught
inside it.  When the stop signal is clear: a block arriving with a non-full
queue (capacity 64) is appended (a copy is enqueued), and a block arriving
with a full queue is dropped with the queue-full warning recorded — that is
the only loss path while capturing.  When the stop signal is set, the block
is discarded without enqueueing (the shutdown discard path, with no
warning).  The queue never exceeds its 64-block capacity. -/
theorem c7_callback_amended (stopSet : Bool) (q : List Nat) (b : Nat) :
    (stopSet = false → q.length < QUEUE_MAXSIZE →
        audio_callback stopSet q b = (q ++ [b], false))
    ∧ (stopSet = false → QUEUE_MAXSIZE ≤ q.length →
        audio_callback stopSet q b = (q, true))
    ∧ (stopSet = true → audio_callback stopSet q b = (q, false))
    ∧ ((audio_callback stopSet q b).1 = q ∨ (audio_callback stopSet q b).1 = q ++ [b])
    ∧ (q.length ≤ QUEUE_MAXSIZE → (audio_callback stopSet q b).1.length ≤ QUEUE_MAXSIZE) := by
  refine ⟨?_, ?_, ?_, audio_callback_queue stopSet q b, ?_⟩
  · intro hs hq
    simp [audio_callback, put_nowait, hs, hq]
  · intro hs hq
    simp [audio_callback, put_nowait, hs, Nat.not_lt.mpr hq]
  · intro hs
    simp [audio_callback, hs]
  · intro hcap
    by_cases hs : stopSet
    · simp [audio_callback, hs, hcap]
    · by_cases hq : q.length < QUEUE_MAXSIZE
      · have hs' : stopSet = false := by simpa using hs
        simp only [audio_callback, hs', put_nowait, hq, if_true]
        simp only [Bool.not_false, if_true, List.length_append, List.length_cons,
          List.length_nil]
        omega
      · have hs' : stopSet = false := by simpa using hs
        simp [audio_callback, put_nowait, hs', hq, hcap]

/-- C7 (witness): the amended callback contract applied at concrete queues:
an enqueue into a queue of one block, a drop at a full 64-block queue, and a
discard while stopping. -/
theorem c7_callback_amended_witness :
    ((false = false) ∧ ([5] : List Nat).length < QUEUE_MAXSIZE
      ∧ audio_callback false [5] 9 = ([5, 9], false))
    ∧ ((false = false) ∧ QUEUE_MAXSIZE ≤ (List.replicate 64 (0 : Nat)).length
      ∧ audio_callback false (List.replicate 64 (0 : Nat)) 9 = (List.replicate 64 0, true))
    ∧ ((true = true) ∧ audio_callback true ([5] : List Nat) 9 = ([5], false)) :=
  ⟨⟨rfl, by decide, (c7_callback_amended false [5] 9).1 rfl (by decide)⟩,
    ⟨rfl, by decide, (c7_callback_amended false (List.replicate 64 0) 9).2.1 rfl (by decide)⟩,
    ⟨rfl, (c7_callback_amended true [5] 9).2.2.1 rfl⟩⟩

/-- C8: Malformed control input.  A text message whose `json.loads` fails
is silently ignored on both channels: the bridge control loop `continue`s
and the transcription consumer loop `pass`es — the session state (capture
thread, stop signal, queues, worker inbound queue and loop flag) is
unchanged and nothing is sent back to the sender. -/
theorem c8_malformed_ignored (st : BridgeState) (stT : TransSessionState) :
    control_text_step none st = (st, []) ∧ transcribe_text_step none stT = (stT, []) :=
  ⟨rfl, rfl⟩

/-- C9: Classifier result filtering (`classify_socket` lines 244-255).  On a
non-empty score vector the reported class is the top-scoring one (the
looked-up confidence bounds every score); a result message is produced iff
that confidence clears the threshold and the top label is not ignored; a
window failing either test produces no output; and under the default
configuration any window whose top label is in the ignored set — in
particular `Silence` and `Speech` — is never reported. -/
theorem c9_classifier_filtering (scores : List ℚ) (classNames : List String)
    (thr : ℚ) (ignored : List String) (hs : scores ≠ []) :
    (argmax_idx scores < scores.length
      ∧ ∀ x ∈ scores, x ≤ scores.getD (argmax_idx scores) 0)
    ∧ ((classify_window scores classNames thr ignored).isSome
        ↔ (thr ≤ scores.getD (argmax_idx scores) 0
            ∧ (if argmax_idx scores < classNames.length
                then classNames.getD (argmax_idx scores) ""
                else "class_" ++ toString (argmax_idx scores)) ∉ ignored))
    ∧ (scores.getD (argmax_idx scores) 0 < thr →
        classify_window scores classNames thr ignored = none)
    ∧ ((if argmax_idx scores < classNames.length
          then classNames.getD (argmax_idx scores) ""
          else "class_" ++ toString (argmax_idx scores)) ∈ IGNORED_LABELS →
        classify_window scores classNames CONFIDENCE_THRESHOLD IGNORED_LABELS = none) := by
  refine ⟨argmax_spec scores hs, ?_, ?_, ?_⟩
  · rw [classify_window]
    split
    · next hcond => simpa using hcond
    · next hcond => simpa using hcond
  · intro hlt
    rw [classify_window]
    rw [if_neg]
    intro hcon
    exact absurd hcon.1 (not_le.mpr hlt)
  · intro hmem
    rw [classify_window]
    rw [if_neg]
    intro hcon
    exact absurd hmem hcon.2

/-- C9 (witness): the filtering theorem applied to a concrete two-class
score vector. -/
theorem c9_classifier_filtering_witness :
    (([4, 7] : List ℚ) ≠ [])
    ∧ (argmax_idx [4, 7] < ([4, 7] : List ℚ).length
        ∧ ∀ x ∈ ([4, 7] : List ℚ), x ≤ ([4, 7] : List ℚ).getD (argmax_idx [4, 7]) 0)
    ∧ (([4, 7] : List ℚ).getD (argmax_idx [4, 7]) 0 < 8 →
        classify_window [4, 7] ["Speech", "Dog"] 8 [] = none) :=
  ⟨by decide,
    (c9_classifier_filtering [4, 7] ["Speech", "Dog"] 8 [] (by decide)).1,
    (c9_classifier_filtering [4, 7] ["Speech", "Dog"] 8 [] (by decide)).2.2.1⟩

/-- C10 (counterexample): the claim "a chunk is enqueued to the worker only
if the 30 ms VAD check on its first frame classifies it as speech" fails on
the error path of `is_speech` (`w-app.py` lines 73-75): when the
`vad.is_speech` call itself raises, the handler returns `True` (fail-open)
and the chunk is enqueued although the VAD never classified it as speech. -/
theorem c10_counterexample :
    wsAudioStep true (fun _ => Except.error "vad crashed") [] (List.replicate 480 0)
      = [QItem.chunk (List.replicate 480 0)]
    ∧ (fun _ : List Int => (Except.error "vad crashed" : Except String Bool))
        ((List.replicate 480 (0 : Int)).take 480) = Except.error "vad crashed"
    ∧ ∀ b : Bool, (fun _ : List Int => (Except.error "vad crashed" : Except String Bool))
        ((List.replicate 480 (0 : Int)).take 480) ≠ Except.ok b := by
  refine ⟨?_, rfl, fun b h => Except.noConfusion h⟩
  rw [wsAudioStep, if_pos]
  · rw [List.nil_append]
  · rw [is_speech]
    have hbl : byteLen (List.replicate 480 (0 : Int)) = 960 := by
      rw [byteLen, List.length_replicate]
    rw [if_neg (by simp), if_neg (by rw [hbl]; decide)]

/-- C10 (amended): VAD gating in `w-app.py`.  With VAD available, an
incoming chunk either is enqueued unchanged at the tail of the worker's
inbound queue or is silently discarded; it is enqueued iff its first 960
bytes (480 samples) exist and the VAD call on that 30 ms frame either
classifies it as speech or itself raises (errors fail open).  Any chunk
shorter than 960 bytes is classified non-speech and discarded, and a chunk
whose frame the VAD classifies as non-speech is discarded — neither ever
reaches the worker, a data-loss path additional to queue overflow. -/
theorem c10_vad_gate_amended (vdec : List Int → Except String Bool)
    (inQ : List QItem) (chunk : List Int) :
    (wsAudioStep true vdec inQ chunk = inQ ++ [QItem.chunk chunk]
      ∨ wsAudioStep true vdec inQ chunk = inQ)
    ∧ (wsAudioStep true vdec inQ chunk = inQ ++ [QItem.chunk chunk]
        ↔ (BYTES_PER_FRAME ≤ byteLen chunk
            ∧ (vdec (chunk.take 480) = .ok true ∨ ∃ err, vdec (chunk.take 480) = .error err)))
    ∧ (byteLen chunk < BYTES_PER_FRAME →
        is_speech true vdec chunk = false ∧ wsAudioStep true vdec inQ chunk = inQ)
    ∧ (vdec (chunk.take 480) = .ok false → wsAudioStep true vdec inQ chunk = inQ) := by
  have hne : inQ ++ [QItem.chunk chunk] ≠ inQ := by
    intro h
    have := congrArg List.length h
    simp at this
  have hgate : wsAudioStep true vdec inQ chunk
      = if is_speech true vdec chunk then inQ ++ [QItem.chunk chunk] else inQ := rfl
  have hspeech : is_speech true vdec chunk
      = if byteLen chunk < BYTES_PER_FRAME then false
        else match vdec (chunk.take 480) with
          | .ok b => b
          | .error _ => true := by
    rw [is_speech, if_neg (by simp)]
  by_cases hlen : byteLen chunk < BYTES_PER_FRAME
  · have hsp : is_speech true vdec chunk = false := by rw [hspeech, if_pos hlen]
    have hq : wsAudioStep true vdec inQ chunk = inQ := by
      rw [hgate, hsp]
      simp
    refine ⟨Or.inr hq, ?_, fun _ => ⟨hsp, hq⟩, fun _ => hq⟩
    rw [hq]
    constructor
    · intro h
      exact absurd h.symm hne
    · intro hcon
      exact absurd hcon.1 (Nat.not_le.mpr hlen)
  · have hge : BYTES_PER_FRAME ≤ byteLen chunk := Nat.not_lt.mp hlen
    cases hv : vdec (chunk.take 480) with
    | ok b =>
      cases b with
      | true =>
        have hsp : is_speech true vdec chunk = true := by
          rw [hspeech, if_neg hlen, hv]
        have hq : wsAudioStep true vdec inQ chunk = inQ ++ [QItem.chunk chunk] := by
          rw [hgate, hsp]
          simp
        refine ⟨Or.inl hq, ?_, ?_, ?_⟩
        · rw [hq]
          exact ⟨fun _ => ⟨hge, Or.inl rfl⟩, fun _ => rfl⟩
        · intro h
          exact absurd h (Nat.not_lt.mpr hge)
        · intro hfalse
          exact absurd hfalse (by simp)
      | false =>
        have hsp : is_speech true vdec chunk = false := by
          rw [hspeech, if_neg hlen, hv]
        have hq : wsAudioStep true vdec inQ chunk = inQ := by
          rw [hgate, hsp]
          simp
        refine ⟨Or.inr hq, ?_, ?_, fun _ => hq⟩
        · rw [hq]
          constructor
          · intro h
            exact absurd h.symm hne
          · rintro ⟨_, hc | ⟨err, hc⟩⟩
            · exact absurd hc (by simp)
            · exact absurd hc (by simp)
        · intro h
          exact absurd h (Nat.not_lt.mpr hge)
    | error err =>
      have hsp : is_speech true vdec chunk = true := by
        rw [hspeech, if_neg hlen, hv]
      have hq : wsAudioStep true vdec inQ chunk = inQ ++ [QItem.chunk chunk] := by
        rw [hgate, hsp]
        simp
      refine ⟨Or.inl hq, ?_, ?_, ?_⟩
      · rw [hq]
        exact ⟨fun _ => ⟨hge, Or.inr ⟨err, rfl⟩⟩, fun _ => rfl⟩
      · intro h
        exact absurd h (Nat.not_lt.mpr hge)
      · intro hfalse
        exact absurd hfalse (by simp)

/-- C10 (witness): the amended VAD gate applied to a VAD oracle that
classifies the frame as non-speech, a short chunk, and a speech frame. -/
theorem c10_vad_gate_amended_witness :
    (byteLen [1, 2, 3] < BYTES_PER_FRAME
      ∧ is_speech true (fun _ => Except.ok true) [1, 2, 3] = false
      ∧ wsAudioStep true (fun _ => Except.ok true) [] [1, 2, 3] = [])
    ∧ ((fun _ : List Int => (Except.ok false : Except String Bool))
          ((List.replicate 480 (1 : Int)).take 480) = Except.ok false
      ∧ wsAudioStep true (fun _ => Except.ok false) [] (List.replicate 480 1) = [])
    ∧ (wsAudioStep true (fun _ => Except.ok true) [] (List.replicate 480 1)
          = [] ++ [QItem.chunk (List.replicate 480 1)]
        ↔ (BYTES_PER_FRAME ≤ byteLen (List.replicate 480 1)
            ∧ ((fun _ : List Int => (Except.ok true : Except String Bool))
                  ((List.replicate 480 (1 : Int)).take 480) = .ok true
              ∨ ∃ err, (fun _ : List Int => (Except.ok true : Except String Bool))
                  ((List.replicate 480 (1 : Int)).take 480) = .error err))) :=
  ⟨⟨by decide,
      (c10_vad_gate_amended (fun _ => Except.ok true) [] [1, 2, 3]).2.2.1 (by decide)⟩,
    ⟨rfl, (c10_vad_gate_amended (fun _ => Except.ok false) [] (List.replicate 480 1)).2.2.2 rfl⟩,
    (c10_vad_gate_amended (fun _ => Except.ok true) [] (List.replicate 480 1)).2.1⟩

end CobiGlasses
